import Mathlib

/-!
Verification of the task-orchestration core of an AI-assistant backend:
the per-user task orchestrator (app/core/orchestrator.py), the execution
engine driver loop (app/core/execution_engine.py), the server tool
executor (app/core/server_executor.py) and the development task emitter
(app/core/task_emitter.py).

The data-model module app/core/models.py (Task, TaskOutput, TaskRecord,
ExecutionState, TaskBatch and their accessors) is not part of the
available sources; those definitions are modelled from the data-model
section of the specification and are marked as such in their doc
comments.  Everything else is translated directly from the Python
sources named above.

Modelling conventions:
  - Python dicts (insertion ordered) become association lists over
    String keys; assignment is update-in-place-or-append.
  - Wall-clock instants (datetime.now()) become an explicit natural
    number argument passed to every mutating operation.
  - The per-user asyncio locks serialize all state mutations, so the
    concurrent engine is modelled by sequential state passing.
  - Exceptions raised by a tool adapter become the error branch of an
    Except value; an adapter returning a value that is not a well formed
    TaskOutput (the Python code never checks the shape) is modelled by
    the adapter returning an Option TaskOutput that is none.
  - Real-time expiry of asyncio.wait_for is abstracted by a boolean
    oracle on task ids in the engine environment.
-/

namespace Spec2Proof

/-- The ASCII apostrophe character used in error strings of the source. -/
def sq : String := String.singleton (Char.ofNat 39)

/-- Modelled from the spec: JSON-compatible values used in task inputs
and outputs (app/core/models.py is absent from the sources). -/
inductive Value where
  | vnull : Value
  | vbool : Bool → Value
  | vint : Int → Value
  | vstr : String → Value
  | vlist : List Value → Value
  | vobj : List (String × Value) → Value

/-- Modelled from the spec: a task status, one of
pending / running / completed / failed (models.py absent). -/
inductive TaskStatus where
  | pending : TaskStatus
  | running : TaskStatus
  | completed : TaskStatus
  | failed : TaskStatus
deriving DecidableEq, BEq

/-- Modelled from the spec: execution target, server or client
(models.py absent). -/
inductive ExecutionTarget where
  | server : ExecutionTarget
  | client : ExecutionTarget
deriving DecidableEq, BEq

/-- Modelled from the spec: a planner-produced task (models.py absent).
Lifecycle messages are omitted: the engine only logs them.  The control
mapping is reduced to its timeout_ms entry, the only field the engine
reads. -/
structure Task where
  task_id : String
  tool : String
  execution_target : ExecutionTarget
  depends_on : List String
  inputs : List (String × Value)
  input_bindings : List (String × String)
  control_timeout_ms : Option Nat

/-- Modelled from the spec: structured tool output (models.py absent). -/
structure TaskOutput where
  success : Bool
  data : List (String × Value)
  error : Option String

/-- Modelled from the spec: the mutable record wrapping a task
(models.py absent).  Instants are naturals (milliseconds). -/
structure TaskRecord where
  task : Task
  status : TaskStatus
  resolved_inputs : List (String × Value)
  output : Option TaskOutput
  error : Option String
  created_at : Option Nat
  started_at : Option Nat
  completed_at : Option Nat
  duration_ms : Option Nat
  emitted_at : Option Nat
  ack_received_at : Option Nat

/-- Modelled from the spec: TaskRecord delegates task_id to the wrapped
task (the Python sources access record.task_id directly). -/
def TaskRecord.taskId (r : TaskRecord) : String := r.task.task_id

/-- Modelled from the spec: delegation of the tool name. -/
def TaskRecord.toolName (r : TaskRecord) : String := r.task.tool

/-- Modelled from the spec: delegation of depends_on. -/
def TaskRecord.dependsOn (r : TaskRecord) : List String := r.task.depends_on

/-- Modelled from the spec: delegation of execution_target. -/
def TaskRecord.execTarget (r : TaskRecord) : ExecutionTarget :=
  r.task.execution_target

/-- Association-list lookup with Python dict semantics: the first entry
with the key wins. -/
def alookup {α : Type} : List (String × α) → String → Option α
  | [], _ => none
  | (k, v) :: rest, key => if k = key then some v else alookup rest key

/-- Association-list assignment with Python dict semantics: overwrite
the first entry with the key in place, else append at the end. -/
def aupdate {α : Type} : List (String × α) → String → α → List (String × α)
  | [], key, v => [(key, v)]
  | (k, w) :: rest, key, v =>
      if k = key then (k, v) :: rest else (k, w) :: aupdate rest key v

/-- Modelled from the spec: the per-user execution state (models.py
absent): user id, insertion-ordered task map, instant of last
mutation. -/
structure ExecutionState where
  user_id : String
  tasks : List (String × TaskRecord)
  updated_at : Nat

/-- Modelled from the spec: state.get_task(task_id), a dict lookup
(models.py absent). -/
def ExecutionState.get_task (s : ExecutionState) (task_id : String) :
    Option TaskRecord :=
  alookup s.tasks task_id

/-- Modelled from the spec: state.add_task(record) keys the record by
its task id and stamps updated_at (models.py absent). -/
def ExecutionState.add_task (s : ExecutionState) (now : Nat)
    (r : TaskRecord) : ExecutionState :=
  { s with tasks := aupdate s.tasks r.taskId r, updated_at := now }

/-- Modelled from the spec: state.get_tasks_by_status(status), the task
records with the given status in insertion order (models.py absent). -/
def ExecutionState.get_tasks_by_status (s : ExecutionState)
    (st : TaskStatus) : List TaskRecord :=
  (s.tasks.map Prod.snd).filter (fun r => r.status == st)

/-- Modelled from the spec: state.get_completed_task_ids(), ids of the
completed tasks (models.py absent). -/
def ExecutionState.get_completed_task_ids (s : ExecutionState) :
    List String :=
  (s.get_tasks_by_status .completed).map TaskRecord.taskId

/-- Modelled from the spec: the batch returned by
get_executable_batch, with separate server and client lists
(models.py absent). -/
structure TaskBatch where
  server_tasks : List TaskRecord
  client_tasks : List TaskRecord

/-- The orchestrator state: the user-wise ExecutionState storage
(orchestrator.py, TaskOrchestrator.states). -/
structure Orchestrator where
  states : List (String × ExecutionState)

/-- get_state (orchestrator.py line 254): read the state of one user. -/
def get_state (o : Orchestrator) (user_id : String) :
    Option ExecutionState :=
  alookup o.states user_id

/-- Proof-side view: the record a task id denotes for a user, obtained
through get_state and get_task. -/
def get_record (o : Orchestrator) (user_id task_id : String) :
    Option TaskRecord :=
  (get_state o user_id).bind (fun s => s.get_task task_id)

/-- The error string recorded for an unknown tool
(orchestrator.py line 80). -/
def toolNotFoundMsg (tool : String) : String :=
  "Tool " ++ sq ++ tool ++ sq ++ " not found in registry"

/-- The task record created at registration (orchestrator.py lines
72-88): failed with a validation error when the tool registry does not
know the tool, pending otherwise.  The registry is modelled from the
spec as the list of known tool names (app/registry/loader.py is absent
from the sources; the spec describes the predicate IsKnown). -/
def make_task_record (registry : List String) (now : Nat) (task : Task) :
    TaskRecord :=
  if registry.contains task.tool then
    { task := task, status := .pending, resolved_inputs := [],
      output := none, error := none, created_at := some now,
      started_at := none, completed_at := none, duration_ms := none,
      emitted_at := none, ack_received_at := none }
  else
    { task := task, status := .failed, resolved_inputs := [],
      output := none, error := some (toolNotFoundMsg task.tool),
      created_at := some now, started_at := none, completed_at := none,
      duration_ms := none, emitted_at := none, ack_received_at := none }

/-- register_tasks (orchestrator.py lines 54-92): create the state if
absent, then validate and insert a record per task. -/
def register_tasks (registry : List String) (now : Nat)
    (o : Orchestrator) (user_id : String) (tasks : List Task) :
    Orchestrator :=
  let s0 := match alookup o.states user_id with
            | some s => s
            | none => { user_id := user_id, tasks := [], updated_at := now }
  let s1 := tasks.foldl
      (fun s task => s.add_task now (make_task_record registry now task)) s0
  { states := aupdate o.states user_id s1 }

/-- are_dependencies_met (orchestrator.py lines 129-151): true when the
task is absent or has no dependency, else when every dependency id is
among the completed task ids. -/
def are_dependencies_met (s : ExecutionState) (task_id : String) : Bool :=
  match s.get_task task_id with
  | none => true
  | some task =>
    if task.dependsOn.isEmpty then true
    else
      let completed_ids := s.get_completed_task_ids
      task.dependsOn.all (fun dep_id => completed_ids.contains dep_id)

/-- get_executable_batch (orchestrator.py lines 94-127): scan the
pending tasks, admit those whose dependencies are met, route by
execution target.  The loop with if / elif over the two targets is
rendered as two filters over the pending list, preserving order. -/
def get_executable_batch (o : Orchestrator) (user_id : String) :
    TaskBatch :=
  match alookup o.states user_id with
  | none => { server_tasks := [], client_tasks := [] }
  | some s =>
    let pending := s.get_tasks_by_status .pending
    { server_tasks := pending.filter
        (fun t => are_dependencies_met s t.taskId &&
                  t.execTarget == .server),
      client_tasks := pending.filter
        (fun t => are_dependencies_met s t.taskId &&
                  t.execTarget == .client) }

/-- mark_task_running (orchestrator.py lines 153-165): when the user
state and the task exist, set status running and stamp started_at; no
check of the previous status is performed. -/
def mark_task_running (now : Nat) (o : Orchestrator)
    (user_id task_id : String) : Orchestrator :=
  match alookup o.states user_id with
  | none => o
  | some s =>
    match s.get_task task_id with
    | none => o
    | some r =>
      let r2 := { r with status := .running, started_at := some now }
      let s2 := { s with tasks := aupdate s.tasks task_id r2, updated_at := now }
      { states := aupdate o.states user_id s2 }

/-- mark_task_completed (orchestrator.py lines 167-190): when the user
state and the task exist, set status completed, store the output, stamp
completed_at, and derive duration_ms when started_at is present.  The
output argument is optional because the Python caller can pass any
value through the untyped call. -/
def mark_task_completed (now : Nat) (o : Orchestrator)
    (user_id task_id : String) (output : Option TaskOutput) :
    Orchestrator :=
  match alookup o.states user_id with
  | none => o
  | some s =>
    match s.get_task task_id with
    | none => o
    | some r =>
      let dur := match r.started_at with
                 | some t0 => some (now - t0)
                 | none => r.duration_ms
      let r2 := { r with
        status := .completed, output := output,
        completed_at := some now, duration_ms := dur }
      let s2 := { s with tasks := aupdate s.tasks task_id r2, updated_at := now }
      { states := aupdate o.states user_id s2 }

/-- mark_task_failed (orchestrator.py lines 192-215): when the user
state and the task exist, set status failed, store the error string,
stamp completed_at, derive duration_ms when started_at is present. -/
def mark_task_failed (now : Nat) (o : Orchestrator)
    (user_id task_id : String) (error : String) : Orchestrator :=
  match alookup o.states user_id with
  | none => o
  | some s =>
    match s.get_task task_id with
    | none => o
    | some r =>
      let dur := match r.started_at with
                 | some t0 => some (now - t0)
                 | none => r.duration_ms
      let r2 := { r with
        status := .failed, error := some error,
        completed_at := some now, duration_ms := dur }
      let s2 := { s with tasks := aupdate s.tasks task_id r2, updated_at := now }
      { states := aupdate o.states user_id s2 }

/-- mark_task_emitted (orchestrator.py lines 217-230): when the user
state and the task exist, set status running and stamp emitted_at and
started_at. -/
def mark_task_emitted (now : Nat) (o : Orchestrator)
    (user_id task_id : String) : Orchestrator :=
  match alookup o.states user_id with
  | none => o
  | some s =>
    match s.get_task task_id with
    | none => o
    | some r =>
      let r2 := { r with
        status := .running, emitted_at := some now,
        started_at := some now }
      let s2 := { s with tasks := aupdate s.tasks task_id r2, updated_at := now }
      { states := aupdate o.states user_id s2 }

/-- handle_client_ack (orchestrator.py lines 232-252): when the user
state and the task exist, stamp ack_received_at and route to
mark_task_completed or mark_task_failed according to output.success.
The per-user lock is abstracted away, so the routed call is modelled as
an ordinary sequential call on the updated state. -/
def handle_client_ack (now : Nat) (o : Orchestrator)
    (user_id task_id : String) (output : TaskOutput) : Orchestrator :=
  match alookup o.states user_id with
  | none => o
  | some s =>
    match s.get_task task_id with
    | none => o
    | some r =>
      let r2 := { r with ack_received_at := some now }
      let s2 := { s with tasks := aupdate s.tasks task_id r2 }
      let o2 : Orchestrator := { states := aupdate o.states user_id s2 }
      if output.success then
        mark_task_completed now o2 user_id task_id (some output)
      else
        mark_task_failed now o2 user_id task_id
          (output.error.getD "Client execution failed")

/-- The error string returned when the executor finds no adapter for a
tool (server_executor.py line 71). -/
def noAdapterMsg (tool : String) : String :=
  "No adapter registered for tool " ++ sq ++ tool ++ sq

/-- A tool adapter as the server executor calls it: from the input
mapping to either a raised exception (error branch, carrying str(e)) or
a returned payload.  A payload that is a well formed TaskOutput is
some output; a returned None or otherwise malformed payload, which the
Python code never checks for, is none. -/
def Adapter : Type := List (String × Value) → Except String (Option TaskOutput)

/-- ServerToolExecutor (server_executor.py): the tool registry it
validates against and the adapter table keyed by tool name. -/
structure ServerToolExecutor where
  registry : List String
  adapters : List (String × Adapter)

/-- ServerToolExecutor.execute (server_executor.py lines 45-88):
failure output when the registry does not know the tool or no adapter
is registered; otherwise run the adapter on resolved_inputs when
non-empty, else on the literal inputs; a raised exception becomes a
failure output carrying the exception text; whatever the adapter
returns is passed through unchanged. -/
def ServerToolExecutor.execute (ex : ServerToolExecutor)
    (task : TaskRecord) : Option TaskOutput :=
  let tool_name := task.toolName
  if !(ex.registry.contains tool_name) then
    some { success := false, data := [],
           error := some (toolNotFoundMsg tool_name) }
  else
    match alookup ex.adapters tool_name with
    | none =>
      some { success := false, data := [],
             error := some (noAdapterMsg tool_name) }
    | some adapter =>
      let inputs := if task.resolved_inputs.isEmpty then task.task.inputs
                    else task.resolved_inputs
      match adapter inputs with
      | .ok out => out
      | .error e => some { success := false, data := [], error := some e }

/-- TaskEmitter (task_emitter.py): the development client transport.
The client callback is abstracted to its availability; the call itself
is an external effect with no bearing on orchestrator state. -/
structure TaskEmitter where
  callbackSet : Bool

/-- TaskEmitter.emit_task_single (task_emitter.py lines 57-90): return
false without touching state when no client callback is configured;
otherwise mark the task emitted, serialize and send it, and return
true. -/
def TaskEmitter.emit_task_single (em : TaskEmitter) (now : Nat)
    (o : Orchestrator) (user_id : String) (t : TaskRecord) :
    Orchestrator × Bool :=
  if em.callbackSet then (mark_task_emitted now o user_id t.taskId, true)
  else (o, false)

/-- TaskEmitter.emit_task_batch (task_emitter.py lines 92-125): return
false without touching state when no client callback is configured;
otherwise mark every task of the batch emitted, serialize and send the
batch, and return true. -/
def TaskEmitter.emit_task_batch (em : TaskEmitter) (now : Nat)
    (o : Orchestrator) (user_id : String) (ts : List TaskRecord) :
    Orchestrator × Bool :=
  if em.callbackSet then
    (ts.foldl (fun acc t => mark_task_emitted now acc user_id t.taskId) o,
     true)
  else (o, false)

/-- The engine environment: the injected server executor and client
emitter, both optional exactly as the attributes of ExecutionEngine
(execution_engine.py lines 39-40), plus a boolean oracle saying whether
the asyncio.wait_for timeout of a given task expires (real time is not
representable; the oracle abstracts it). -/
structure EngineEnv where
  server_tool_executor : Option ServerToolExecutor
  client_task_emitter : Option TaskEmitter
  times_out : String → Bool

/-- find the next extension of a chain: the first task of the input
list not yet processed whose depends_on contains the current id (the
inner for loop of _group_chained_tasks, execution_engine.py lines
321-328). -/
def findDependent (tasks : List TaskRecord) (processed : List String)
    (current_id : String) : Option TaskRecord :=
  tasks.find? (fun t =>
    !(processed.contains t.taskId) && t.dependsOn.contains current_id)

/-- the while-True extension loop of _group_chained_tasks
(execution_engine.py lines 319-331), with fuel: every successful find
adds a previously unprocessed id, so tasks.length successes exhaust the
candidates and the fuel given by group_chained_tasks never runs out
before the find fails. -/
def buildChain (tasks : List TaskRecord) :
    Nat → List String → String → List TaskRecord × List String
  | 0, processed, _ => ([], processed)
  | fuel + 1, processed, current_id =>
    match findDependent tasks processed current_id with
    | none => ([], processed)
    | some t =>
      let p := buildChain tasks fuel (t.taskId :: processed) t.taskId
      (t :: p.1, p.2)

/-- the outer for loop of _group_chained_tasks (execution_engine.py
lines 309-333): start a chain at each unprocessed task in insertion
order and extend it greedily. -/
def groupGo (tasks : List TaskRecord) :
    List TaskRecord → List String → List (List TaskRecord)
  | [], _ => []
  | t :: rest, processed =>
    if processed.contains t.taskId then groupGo tasks rest processed
    else
      let p := buildChain tasks tasks.length (t.taskId :: processed)
          t.taskId
      (t :: p.1) :: groupGo tasks rest p.2

/-- _group_chained_tasks (execution_engine.py lines 289-335). -/
def group_chained_tasks (tasks : List TaskRecord) :
    List (List TaskRecord) :=
  if tasks.isEmpty then [] else groupGo tasks tasks []

/-- _emit_client_batch (execution_engine.py lines 240-287): with no
emitter configured, mark every task of the batch failed; otherwise
group into chains, emit chains of length above one as batches, collect
singleton chains and emit them individually.  The boolean results of
the emitter calls are only logged. -/
def emit_client_batch (env : EngineEnv) (now : Nat) (o : Orchestrator)
    (user_id : String) (tasks : List TaskRecord) : Orchestrator :=
  match env.client_task_emitter with
  | none =>
    tasks.foldl (fun acc t =>
      mark_task_failed now acc user_id t.taskId
        "Client task emitter not configured") o
  | some em =>
    let chained_batches := group_chained_tasks tasks
    let step := fun (p : Orchestrator × List TaskRecord) chain =>
      if 1 < chain.length then
        ((em.emit_task_batch now p.1 user_id chain).1, p.2)
      else (p.1, p.2 ++ chain)
    let folded := chained_batches.foldl step (o, [])
    folded.2.foldl
      (fun acc t => (em.emit_task_single now acc user_id t).1) folded.1

/-- _execute_single_server_task (execution_engine.py lines 185-238):
mark running, then run the executor on the task record as fetched in
the batch; a missing executor raises and the exception handler marks
the task failed with the exception text; an expired asyncio.wait_for
timeout (only armed when control.timeout_ms is set) marks it failed
with a timeout error; otherwise the executor result is stored through
mark_task_completed.  No input-binding resolution happens anywhere on
this path (the source carries a TODO at line 218); resolved_inputs is
left as it was.  The float formatting of the timeout message is
abstracted. -/
def execute_single_server_task (env : EngineEnv) (now : Nat)
    (o : Orchestrator) (user_id : String) (t : TaskRecord) :
    Orchestrator :=
  let o1 := mark_task_running now o user_id t.taskId
  match env.server_tool_executor with
  | none =>
    mark_task_failed now o1 user_id t.taskId
      "Server tool executor not configured"
  | some ex =>
    if t.task.control_timeout_ms.isSome && env.times_out t.taskId then
      mark_task_failed now o1 user_id t.taskId "Task timed out"
    else
      mark_task_completed now o1 user_id t.taskId (ex.execute t)

/-- _execute_server_batch (execution_engine.py lines 164-183): nothing
happens when no executor is configured; otherwise every server task of
the batch is executed.  asyncio.gather runs them concurrently, but each
state mutation is serialized under the per-user lock and distinct tasks
touch distinct records, so the sequential fold realizes the reachable
outcome. -/
def execute_server_batch (env : EngineEnv) (now : Nat)
    (o : Orchestrator) (user_id : String) (tasks : List TaskRecord) :
    Orchestrator :=
  match env.server_tool_executor with
  | none => o
  | some _ =>
    tasks.foldl (fun acc t => execute_single_server_task env now acc user_id t) o

/-- One execution of the driver loop body with the given remaining fuel
(max_iterations minus the iterations already run) and idle counter
(execution_engine.py lines 92-147).  Returns the final orchestrator
state, the number of iterations executed, and whether the loop ended
through the no-more-work break (true) rather than by exhausting
max_iterations (false).  Wall-clock instants do not influence control
flow, so a fixed instant 0 is passed to the state operations. -/
def execution_loop_go (env : EngineEnv) (user_id : String) :
    Orchestrator → Nat → Nat → Orchestrator × Nat × Bool
  | o, 0, _ => (o, 0, false)
  | o, fuel + 1, no_work_count =>
    let batch := get_executable_batch o user_id
    if batch.server_tasks.isEmpty && batch.client_tasks.isEmpty then
      let nwc := no_work_count + 1
      if 5 ≤ nwc then
        match get_state o user_id with
        | some s =>
          if !(s.get_tasks_by_status .pending).isEmpty ||
             !(s.get_tasks_by_status .running).isEmpty then
            let p := execution_loop_go env user_id o fuel 0
            (p.1, p.2.1 + 1, p.2.2)
          else (o, 1, true)
        | none => (o, 1, true)
      else
        let p := execution_loop_go env user_id o fuel nwc
        (p.1, p.2.1 + 1, p.2.2)
    else
      let o1 := execute_server_batch env 0 o user_id batch.server_tasks
      let o2 := emit_client_batch env 0 o1 user_id batch.client_tasks
      let p := execution_loop_go env user_id o2 fuel 0
      (p.1, p.2.1 + 1, p.2.2)

/-- _execution_loop (execution_engine.py lines 76-147): up to
max_iterations = 100 iterations with max_idle = 5. -/
def execution_loop (env : EngineEnv) (user_id : String)
    (o : Orchestrator) : Orchestrator × Nat × Bool :=
  execution_loop_go env user_id o 100 0

/-- Looking up the key just assigned yields the assigned value. -/
theorem alookup_aupdate_self {α : Type} (l : List (String × α))
    (k : String) (v : α) : alookup (aupdate l k v) k = some v := by
  induction l with
  | nil => simp [aupdate, alookup]
  | cons hd tl ih =>
    obtain ⟨k0, v0⟩ := hd
    by_cases hk : k0 = k
    · simp [aupdate, alookup, hk]
    · simp [aupdate, alookup, hk, ih]

/-- Assigning one key leaves lookups of other keys unchanged. -/
theorem alookup_aupdate_ne {α : Type} (l : List (String × α))
    (k k2 : String) (v : α) (h : k ≠ k2) :
    alookup (aupdate l k v) k2 = alookup l k2 := by
  induction l with
  | nil => simp [aupdate, alookup, h]
  | cons hd tl ih =>
    obtain ⟨k0, v0⟩ := hd
    by_cases hk : k0 = k
    · subst hk
      simp [aupdate, alookup, h]
    · simp [aupdate, alookup, hk, ih]

/-- Re-assigning the value a key already holds is the identity. -/
theorem aupdate_self {α : Type} (l : List (String × α)) (k : String)
    (v : α) (h : alookup l k = some v) : aupdate l k v = l := by
  induction l with
  | nil => simp [alookup] at h
  | cons hd tl ih =>
    obtain ⟨k0, v0⟩ := hd
    by_cases hk : k0 = k
    · subst hk
      simp [alookup] at h
      simp [aupdate, h]
    · simp [alookup, hk] at h
      simp [aupdate, hk, ih h]

/-- C10: every state-mutating orchestrator operation invoked for an
unknown user, or for a task id absent from the user state, returns the
orchestrator unchanged: no exception, no mutation of any user state,
updated_at included. -/
theorem mark_ops_missing_noop (now : Nat) (o : Orchestrator)
    (u t : String) (out : TaskOutput) (e : String)
    (h : get_state o u = none ∨
         ∃ s, get_state o u = some s ∧ s.get_task t = none) :
    mark_task_running now o u t = o ∧
    mark_task_completed now o u t (some out) = o ∧
    mark_task_failed now o u t e = o ∧
    mark_task_emitted now o u t = o ∧
    handle_client_ack now o u t out = o := by
  simp only [get_state] at h
  rcases h with h | ⟨s, hs, ht⟩
  · refine ⟨?_, ?_, ?_, ?_, ?_⟩ <;>
      simp [mark_task_running, mark_task_completed, mark_task_failed,
            mark_task_emitted, handle_client_ack, h]
  · refine ⟨?_, ?_, ?_, ?_, ?_⟩ <;>
      simp [mark_task_running, mark_task_completed, mark_task_failed,
            mark_task_emitted, handle_client_ack, hs, ht]

/-- Witness for C10 at a concrete input: the empty orchestrator has no
state for user u, and each operation leaves it unchanged. -/
theorem mark_ops_missing_noop_witness :
    mark_task_running 3 ⟨[]⟩ "u" "t" = ⟨[]⟩ ∧
    mark_task_completed 3 ⟨[]⟩ "u" "t"
      (some { success := true, data := [], error := none }) = ⟨[]⟩ ∧
    mark_task_failed 3 ⟨[]⟩ "u" "t" "boom" = ⟨[]⟩ ∧
    mark_task_emitted 3 ⟨[]⟩ "u" "t" = ⟨[]⟩ ∧
    handle_client_ack 3 ⟨[]⟩ "u" "t"
      { success := true, data := [], error := none } = ⟨[]⟩ :=
  mark_ops_missing_noop 3 ⟨[]⟩ "u" "t"
    { success := true, data := [], error := none } "boom" (Or.inl rfl)

/-- A task used by the counterexample to C2. -/
def c2Task : Task :=
  { task_id := "t1", tool := "web_search", execution_target := .server,
    depends_on := [], inputs := [], input_bindings := [],
    control_timeout_ms := none }

/-- A completed task record used by the counterexample to C2. -/
def c2Rec : TaskRecord :=
  { task := c2Task, status := .completed, resolved_inputs := [],
    output := some { success := true, data := [], error := none },
    error := none, created_at := some 0, started_at := some 0,
    completed_at := some 1, duration_ms := some 1, emitted_at := none,
    ack_received_at := none }

/-- An orchestrator holding one completed task, for the counterexample
to C2. -/
def c2Orch : Orchestrator :=
  ⟨[("u", { user_id := "u", tasks := [("t1", c2Rec)], updated_at := 1 })]⟩

/-- C2 counterexample: the state machine is not enforced.  Task t1 is
completed, yet mark_task_running moves it back to running, so a
transition out of a terminal state is not a no-op. -/
theorem c2_counterexample :
    (get_record c2Orch "u" "t1").map TaskRecord.status =
      some .completed ∧
    (get_record (mark_task_running 5 c2Orch "u" "t1") "u" "t1").map
      TaskRecord.status = some .running := by
  constructor <;> rfl

/-- C2 amended: when the user state and the task record exist, each
mark operation overwrites the status unconditionally, with no check of
the previous status: mark_task_running and mark_task_emitted set
running, mark_task_completed sets completed and stores the output,
mark_task_failed sets failed, and handle_client_ack routes on
output.success; this holds whatever the previous status, so a
completed or failed task can change status and output again. -/
theorem mark_ops_overwrite (now : Nat) (o : Orchestrator)
    (u t : String) (s : ExecutionState) (r : TaskRecord)
    (out : TaskOutput) (e : String)
    (hs : get_state o u = some s) (hr : s.get_task t = some r) :
    (get_record (mark_task_running now o u t) u t).map
      TaskRecord.status = some .running ∧
    (get_record (mark_task_completed now o u t (some out)) u t).map
      TaskRecord.status = some .completed ∧
    (get_record (mark_task_completed now o u t (some out)) u t).map
      TaskRecord.output = some (some out) ∧
    (get_record (mark_task_failed now o u t e) u t).map
      TaskRecord.status = some .failed ∧
    (get_record (mark_task_emitted now o u t) u t).map
      TaskRecord.status = some .running ∧
    (out.success = true →
      (get_record (handle_client_ack now o u t out) u t).map
        TaskRecord.status = some .completed) ∧
    (out.success = false →
      (get_record (handle_client_ack now o u t out) u t).map
        TaskRecord.status = some .failed) := by
  simp only [get_state] at hs
  simp only [ExecutionState.get_task] at hr
  refine ⟨?_, ?_, ?_, ?_, ?_, ?_, ?_⟩
  · simp [mark_task_running, hs, hr, get_record, get_state,
          ExecutionState.get_task, alookup_aupdate_self]
  · simp [mark_task_completed, hs, hr, get_record, get_state,
          ExecutionState.get_task, alookup_aupdate_self]
  · simp [mark_task_completed, hs, hr, get_record, get_state,
          ExecutionState.get_task, alookup_aupdate_self]
  · simp [mark_task_failed, hs, hr, get_record, get_state,
          ExecutionState.get_task, alookup_aupdate_self]
  · simp [mark_task_emitted, hs, hr, get_record, get_state,
          ExecutionState.get_task, alookup_aupdate_self]
  · intro hsucc
    simp [handle_client_ack, hs, hr, hsucc, mark_task_completed,
          get_record, get_state, ExecutionState.get_task,
          alookup_aupdate_self]
  · intro hsucc
    simp [handle_client_ack, hs, hr, hsucc, mark_task_failed,
          get_record, get_state, ExecutionState.get_task,
          alookup_aupdate_self]

/-- Witness for the amended C2 at a concrete input: the completed task
of c2Orch is overwritten by every operation. -/
theorem mark_ops_overwrite_witness :
    (get_record (mark_task_running 5 c2Orch "u" "t1") "u" "t1").map
      TaskRecord.status = some .running ∧
    (get_record (mark_task_failed 5 c2Orch "u" "t1" "late failure")
      "u" "t1").map TaskRecord.status = some .failed :=
  let h := mark_ops_overwrite 5 c2Orch "u" "t1"
    { user_id := "u", tasks := [("t1", c2Rec)], updated_at := 1 } c2Rec
    { success := true, data := [], error := none } "late failure"
    rfl rfl
  ⟨h.1, h.2.2.2.1⟩

/-- C9 counterexample: register with an empty task list is not a no-op
for a user with no prior state: it creates an empty ExecutionState, so
get_state changes from none to a present state. -/
theorem c9_counterexample :
    get_state (register_tasks [] 0 ⟨[]⟩ "u" []) "u" ≠
      get_state ⟨[]⟩ "u" := by
  intro h
  rw [show get_state (register_tasks [] 0 ⟨[]⟩ "u" []) "u" =
        some { user_id := "u", tasks := [], updated_at := 0 } from rfl,
      show get_state (⟨[]⟩ : Orchestrator) "u" = none from rfl] at h
  exact Option.noConfusion h

/-- C9 amended: for a user that already has an ExecutionState,
register with an empty task list is a complete no-op: the orchestrator
is returned unchanged, so every observable (every user state, get_state
and any summary) is as before.  For a user without a state it creates
an empty one. -/
theorem register_empty_noop (registry : List String) (now : Nat)
    (o : Orchestrator) (u : String) (s : ExecutionState)
    (h : get_state o u = some s) :
    register_tasks registry now o u [] = o := by
  simp only [get_state] at h
  obtain ⟨states⟩ := o
  simp only [register_tasks, List.foldl_nil, h]
  simp [aupdate_self states u s h]

/-- Witness for the amended C9 at a concrete input. -/
theorem register_empty_noop_witness :
    register_tasks ["web_search"] 9
      ⟨[("u", { user_id := "u", tasks := [], updated_at := 7 })]⟩
      "u" [] =
      ⟨[("u", { user_id := "u", tasks := [], updated_at := 7 })]⟩ :=
  register_empty_noop ["web_search"] 9 _ "u"
    { user_id := "u", tasks := [], updated_at := 7 } rfl

/-- The completed search task whose output the binding of C1 references. -/
def c1TaskS : Task :=
  { task_id := "S", tool := "web_search", execution_target := .server,
    depends_on := [], inputs := [("query", .vstr "x")],
    input_bindings := [], control_timeout_ms := none }

/-- The completed record of task S with output data total_results = 7. -/
def c1RecS : TaskRecord :=
  { task := c1TaskS, status := .completed, resolved_inputs := [],
    output := some { success := true,
                     data := [("total_results", .vint 7)], error := none },
    error := none, created_at := some 0, started_at := some 1,
    completed_at := some 2, duration_ms := some 1, emitted_at := none,
    ack_received_at := none }

/-- The dependent server task with an input binding whose path does not
exist in the output of S. -/
def c1TaskC : Task :=
  { task_id := "C", tool := "file_create", execution_target := .server,
    depends_on := ["S"], inputs := [("path", .vstr "/tmp/out")],
    input_bindings := [("content", "$.S.output.data.nonexistent")],
    control_timeout_ms := none }

/-- The pending record of task C. -/
def c1RecC : TaskRecord :=
  { task := c1TaskC, status := .pending, resolved_inputs := [],
    output := none, error := none, created_at := some 0,
    started_at := none, completed_at := none, duration_ms := none,
    emitted_at := none, ack_received_at := none }

/-- The output the file_create adapter returns in the C1 scenario. -/
def c1AdapterOut : TaskOutput :=
  { success := true, data := [("created", .vbool true)], error := none }

/-- The file_create adapter of the C1 scenario: a normally returning
adapter. -/
def c1Adapter : Adapter := fun _ => .ok (some c1AdapterOut)

/-- The server executor of the C1 scenario. -/
def c1Executor : ServerToolExecutor :=
  { registry := ["web_search", "file_create"],
    adapters := [("file_create", c1Adapter)] }

/-- The engine environment of the C1 scenario. -/
def c1Env : EngineEnv :=
  { server_tool_executor := some c1Executor, client_task_emitter := none,
    times_out := fun _ => false }

/-- The orchestrator state of the C1 scenario: S completed, C pending. -/
def c1Orch : Orchestrator :=
  ⟨[("u", { user_id := "u",
            tasks := [("S", c1RecS), ("C", c1RecC)], updated_at := 2 })]⟩

/-- C1: evaluation of the server dispatch path at the failing input.
Task C carries an input binding whose path does not exist in the output
of its completed dependency, so per the claim it must be marked failed
with a binding-resolution error and the adapter must not run.  The code
performs no binding resolution at all (execution_engine.py line 218 is
a TODO for it): the adapter runs on the literal inputs, the task
completes with the adapter output, and resolved_inputs stays empty
instead of containing a key per binding entry. -/
theorem c1_bindings_never_resolved :
    c1RecC.task.input_bindings =
      [("content", "$.S.output.data.nonexistent")] ∧
    (get_record (execute_single_server_task c1Env 10 c1Orch "u" c1RecC)
      "u" "C").map TaskRecord.status = some .completed ∧
    (get_record (execute_single_server_task c1Env 10 c1Orch "u" c1RecC)
      "u" "C").map TaskRecord.resolved_inputs = some [] ∧
    (get_record (execute_single_server_task c1Env 10 c1Orch "u" c1RecC)
      "u" "C").map TaskRecord.output = some (some c1AdapterOut) := by
  refine ⟨rfl, rfl, rfl, rfl⟩

/-- The record with which the C8 counterexample calls the executor. -/
def c8Rec : TaskRecord :=
  { task := { task_id := "t1", tool := "echo", execution_target := .server,
              depends_on := [], inputs := [], input_bindings := [],
              control_timeout_ms := none },
    status := .pending, resolved_inputs := [], output := none,
    error := none, created_at := some 0, started_at := none,
    completed_at := none, duration_ms := none, emitted_at := none,
    ack_received_at := none }

/-- An executor whose echo adapter returns a malformed payload (None in
Python terms) instead of a TaskOutput. -/
def c8Executor : ServerToolExecutor :=
  { registry := ["echo"], adapters := [("echo", fun _ => .ok none)] }

/-- C8 counterexample: when the adapter returns an empty or malformed
payload, execute does not return a TaskOutput with success false and a
populated error; it passes the malformed payload through unchanged, so
nothing at all of the claimed shape is returned. -/
theorem c8_counterexample :
    ServerToolExecutor.execute c8Executor c8Rec = none := rfl

/-- C8 amended: execute returns success false with the corresponding
populated error when the registry does not know the tool or when no
adapter is registered for it; when the adapter raises, it returns
success false carrying the exception text; but whatever payload the
adapter returns, well formed or not, is passed through unchanged, with
no detection of an empty or malformed payload.  No case propagates an
exception to the caller. -/
theorem execute_error_cases (ex : ServerToolExecutor) (t : TaskRecord) :
    (t.toolName ∉ ex.registry →
      ServerToolExecutor.execute ex t =
        some { success := false, data := [],
               error := some (toolNotFoundMsg t.toolName) } ∧
        toolNotFoundMsg t.toolName ≠ "") ∧
    (t.toolName ∈ ex.registry →
      alookup ex.adapters t.toolName = none →
      ServerToolExecutor.execute ex t =
        some { success := false, data := [],
               error := some (noAdapterMsg t.toolName) } ∧
        noAdapterMsg t.toolName ≠ "") ∧
    (∀ ad msg, t.toolName ∈ ex.registry →
      alookup ex.adapters t.toolName = some ad →
      ad (if t.resolved_inputs.isEmpty then t.task.inputs
          else t.resolved_inputs) = .error msg →
      ServerToolExecutor.execute ex t =
        some { success := false, data := [], error := some msg }) ∧
    (∀ ad res, t.toolName ∈ ex.registry →
      alookup ex.adapters t.toolName = some ad →
      ad (if t.resolved_inputs.isEmpty then t.task.inputs
          else t.resolved_inputs) = .ok res →
      ServerToolExecutor.execute ex t = res) := by
  refine ⟨?_, ?_, ?_, ?_⟩
  · intro h
    constructor
    · simp [ServerToolExecutor.execute, h]
    · intro hc
      have h2 := congrArg String.length hc
      simp [toolNotFoundMsg, sq, String.length_append] at h2
  · intro h had
    constructor
    · simp [ServerToolExecutor.execute, h, had]
    · intro hc
      have h2 := congrArg String.length hc
      simp [noAdapterMsg, sq, String.length_append] at h2
  · intro ad msg h had hrun
    simp [ServerToolExecutor.execute, h, had, hrun]
  · intro ad res h had hrun
    simp [ServerToolExecutor.execute, h, had, hrun]

/-- Witness for the amended C8 at a concrete input: an executor with an
empty registry rejects the tool with the populated validation error. -/
theorem execute_error_cases_witness :
    ServerToolExecutor.execute { registry := [], adapters := [] } c8Rec =
      some { success := false, data := [],
             error := some (toolNotFoundMsg "echo") } :=
  ((execute_error_cases { registry := [], adapters := [] } c8Rec).1
    (by simp)).1

/-- mark_task_failed only touches the record of the named task: records
with another id are unaffected. -/
theorem mark_task_failed_frame (now : Nat) (o : Orchestrator)
    (u t t2 e : String) (h : t ≠ t2) :
    get_record (mark_task_failed now o u t2 e) u t = get_record o u t := by
  unfold mark_task_failed
  cases hs : alookup o.states u with
  | none => rfl
  | some s =>
    cases ht : alookup s.tasks t2 with
    | none =>
      simp [ExecutionState.get_task, ht]
    | some r =>
      simp only [ExecutionState.get_task, ht]
      simp [get_record, get_state, ExecutionState.get_task,
            alookup_aupdate_self, hs,
            alookup_aupdate_ne _ t2 t _ (Ne.symm h)]

/-- mark_task_failed never makes a record disappear nor appear. -/
theorem mark_task_failed_isSome (now : Nat) (o : Orchestrator)
    (u t t2 e : String) :
    (get_record (mark_task_failed now o u t2 e) u t).isSome =
      (get_record o u t).isSome := by
  by_cases h : t = t2
  · subst h
    unfold mark_task_failed
    cases hs : alookup o.states u with
    | none => rfl
    | some s =>
      cases ht : alookup s.tasks t with
      | none => simp [ExecutionState.get_task, ht]
      | some r =>
        simp only [ExecutionState.get_task, ht]
        simp [get_record, get_state, ExecutionState.get_task,
              alookup_aupdate_self, hs, ht]
  · rw [mark_task_failed_frame now o u t t2 e h]

/-- mark_task_failed on a present record sets status failed and stores
the error string. -/
theorem mark_task_failed_sets (now : Nat) (o : Orchestrator)
    (u t e : String) (r : TaskRecord) (h : get_record o u t = some r) :
    ∃ r2, get_record (mark_task_failed now o u t e) u t = some r2 ∧
      r2.status = .failed ∧ r2.error = some e := by
  simp only [get_record, get_state] at h
  cases hs : alookup o.states u with
  | none => simp [hs] at h
  | some s =>
    simp only [hs, Option.some_bind, ExecutionState.get_task] at h
    refine ⟨{ r with
      status := .failed, error := some e, completed_at := some now,
      duration_ms := match r.started_at with
                     | some t0 => some (now - t0)
                     | none => r.duration_ms }, ?_, rfl, rfl⟩
    unfold mark_task_failed
    simp only [hs, ExecutionState.get_task, h]
    simp [get_record, get_state, ExecutionState.get_task,
          alookup_aupdate_self]

/-- Folding mark_task_failed over tasks whose ids all differ from a
given id leaves that record unchanged. -/
theorem fold_fail_frame (now : Nat) (u msg : String) :
    ∀ (ts : List TaskRecord) (o : Orchestrator) (tid : String),
    (∀ x ∈ ts, x.taskId ≠ tid) →
    get_record (ts.foldl
      (fun acc x => mark_task_failed now acc u x.taskId msg) o) u tid =
      get_record o u tid := by
  intro ts
  induction ts with
  | nil => intro o tid _; rfl
  | cons x rest ih =>
    intro o tid hne
    simp only [List.foldl_cons]
    rw [ih _ tid (fun y hy => hne y (List.mem_cons_of_mem x hy))]
    exact mark_task_failed_frame now o u tid x.taskId msg
      (fun hEq => hne x (List.mem_cons_self x rest) hEq.symm)

/-- Folding mark_task_failed over a list of present tasks with distinct
ids marks every one of them failed with the message. -/
theorem fold_fail_all (now : Nat) (u msg : String) :
    ∀ (ts : List TaskRecord) (o : Orchestrator),
    (∀ x ∈ ts, (get_record o u x.taskId).isSome = true) →
    (ts.map TaskRecord.taskId).Nodup →
    ∀ x ∈ ts, ∃ r, get_record (ts.foldl
      (fun acc y => mark_task_failed now acc u y.taskId msg) o) u
        x.taskId = some r ∧ r.status = .failed ∧ r.error = some msg := by
  intro ts
  induction ts with
  | nil => intro o _ _ x hx; exact absurd hx (List.not_mem_nil x)
  | cons x0 rest ih =>
    intro o hpres hnd x hx
    simp only [List.map_cons, List.nodup_cons] at hnd
    obtain ⟨hx0, hndrest⟩ := hnd
    simp only [List.foldl_cons]
    rcases List.mem_cons.mp hx with hEq | hmem
    · subst hEq
      have hp : (get_record o u x.taskId).isSome = true :=
        hpres x (List.mem_cons_self x rest)
      obtain ⟨r0, hr0⟩ := Option.isSome_iff_exists.mp hp
      obtain ⟨r2, hr2, hst, herr⟩ :=
        mark_task_failed_sets now o u x.taskId msg r0 hr0
      refine ⟨r2, ?_, hst, herr⟩
      rw [fold_fail_frame now u msg rest _ x.taskId ?_, hr2]
      intro y hy hidy
      exact hx0 (hidy ▸ List.mem_map_of_mem TaskRecord.taskId hy)
    · refine ih (mark_task_failed now o u x0.taskId msg) ?_ hndrest x hmem
      intro y hy
      rw [mark_task_failed_isSome]
      exact hpres y (List.mem_cons_of_mem x0 hy)

/-- emit_task_batch with no client callback touches nothing. -/
theorem emit_task_batch_nocb (em : TaskEmitter) (now : Nat)
    (o : Orchestrator) (u : String) (chain : List TaskRecord)
    (h : em.callbackSet = false) :
    em.emit_task_batch now o u chain = (o, false) := by
  simp [TaskEmitter.emit_task_batch, h]

/-- emit_task_single with no client callback touches nothing. -/
theorem emit_task_single_nocb (em : TaskEmitter) (now : Nat)
    (o : Orchestrator) (u : String) (t : TaskRecord)
    (h : em.callbackSet = false) :
    em.emit_task_single now o u t = (o, false) := by
  simp [TaskEmitter.emit_task_single, h]

/-- C6 amended: when no client task emitter is configured at dispatch,
every task of the client batch is marked failed with the error
"Client task emitter not configured"; but when an emitter exists whose
client callback is unavailable, both emission paths return false
without any state change, so the affected tasks keep their previous
status (they remain pending) instead of being marked failed. -/
theorem emitter_unavailable (env : EngineEnv) (now : Nat)
    (o : Orchestrator) (u : String) (ts : List TaskRecord)
    (hpres : ∀ x ∈ ts, (get_record o u x.taskId).isSome = true)
    (hnd : (ts.map TaskRecord.taskId).Nodup) :
    (env.client_task_emitter = none →
      ∀ x ∈ ts, ∃ r,
        get_record (emit_client_batch env now o u ts) u x.taskId =
          some r ∧ r.status = .failed ∧
        r.error = some "Client task emitter not configured") ∧
    (∀ em, env.client_task_emitter = some em → em.callbackSet = false →
      emit_client_batch env now o u ts = o) := by
  constructor
  · intro hnone x hx
    unfold emit_client_batch
    rw [hnone]
    exact fold_fail_all now u "Client task emitter not configured" ts o
      hpres hnd x hx
  · intro em hsome hcb
    unfold emit_client_batch
    rw [hsome]
    have hfold : ∀ (chains : List (List TaskRecord))
        (ind : List TaskRecord),
        (chains.foldl (fun p chain =>
          if 1 < chain.length then
            ((em.emit_task_batch now p.1 u chain).1, p.2)
          else (p.1, p.2 ++ chain)) (o, ind)).1 = o := by
      intro chains
      induction chains with
      | nil => intro ind; rfl
      | cons c rest ih =>
        intro ind
        simp only [List.foldl_cons]
        by_cases hlen : 1 < c.length
        · simp only [hlen, if_true, emit_task_batch_nocb em now o u c hcb]
          exact ih ind
        · simp only [hlen, if_false]
          exact ih (ind ++ c)
    have hsingles : ∀ (l : List TaskRecord) (o2 : Orchestrator),
        l.foldl (fun acc t => (em.emit_task_single now acc u t).1) o2 =
          o2 := by
      intro l
      induction l with
      | nil => intro o2; rfl
      | cons t rest ih =>
        intro o2
        simp only [List.foldl_cons,
                   emit_task_single_nocb em now o2 u t hcb]
        exact ih o2
    simp only [hsingles]
    exact hfold (group_chained_tasks ts) []

/-- The pending client task of the C6 scenario. -/
def c6Rec : TaskRecord :=
  { task := { task_id := "t1", tool := "file_create",
              execution_target := .client, depends_on := [],
              inputs := [("path", .vstr "~/a")], input_bindings := [],
              control_timeout_ms := none },
    status := .pending, resolved_inputs := [], output := none,
    error := none, created_at := some 0, started_at := none,
    completed_at := none, duration_ms := none, emitted_at := none,
    ack_received_at := none }

/-- The orchestrator of the C6 scenario, holding the single pending
client task. -/
def c6Orch : Orchestrator :=
  ⟨[("u", { user_id := "u", tasks := [("t1", c6Rec)], updated_at := 0 })]⟩

/-- The engine environment of the C6 scenario: an emitter exists but
its client callback is not available. -/
def c6Env : EngineEnv :=
  { server_tool_executor := none,
    client_task_emitter := some { callbackSet := false },
    times_out := fun _ => false }

/-- C6 counterexample: the client session (the emitter callback) is
unavailable at dispatch, yet the dispatched task is not marked failed:
the batch emission leaves the orchestrator unchanged and the task stays
pending with no terminal outcome. -/
theorem c6_counterexample :
    emit_client_batch c6Env 4 c6Orch "u" [c6Rec] = c6Orch ∧
    (get_record (emit_client_batch c6Env 4 c6Orch "u" [c6Rec])
      "u" "t1").map TaskRecord.status = some .pending := by
  constructor <;> rfl

/-- Witness for the amended C6 at a concrete input: with the emitter
itself missing, the dispatched task is marked failed with the
configuration error. -/
theorem emitter_unavailable_witness :
    ∃ r, get_record (emit_client_batch
      { server_tool_executor := none, client_task_emitter := none,
        times_out := fun _ => false } 4 c6Orch "u" [c6Rec]) "u" "t1" =
        some r ∧ r.status = .failed ∧
      r.error = some "Client task emitter not configured" :=
  (emitter_unavailable
      { server_tool_executor := none, client_task_emitter := none,
        times_out := fun _ => false } 4 c6Orch "u" [c6Rec]
      (by intro x hx; rw [List.mem_singleton.mp hx]; rfl)
      (by simp)).1 rfl c6Rec (List.mem_singleton.mpr rfl)

/-- A found association entry is a member of the list. -/
theorem alookup_mem {α : Type} :
    ∀ (l : List (String × α)) (k : String) (v : α),
    alookup l k = some v → (k, v) ∈ l := by
  intro l
  induction l with
  | nil => intro k v h; simp [alookup] at h
  | cons hd tl ih =>
    intro k v h
    obtain ⟨k0, v0⟩ := hd
    by_cases hk : k0 = k
    · subst hk
      simp [alookup] at h
      simp [h]
    · simp [alookup, hk] at h
      exact List.mem_cons_of_mem _ (ih k v h)

/-- With pairwise distinct keys, membership determines the lookup. -/
theorem mem_alookup {α : Type} :
    ∀ (l : List (String × α)) (k : String) (v : α),
    (l.map Prod.fst).Nodup → (k, v) ∈ l → alookup l k = some v := by
  intro l
  induction l with
  | nil => intro k v _ h; exact absurd h (List.not_mem_nil _)
  | cons hd tl ih =>
    intro k v hnd h
    obtain ⟨k0, v0⟩ := hd
    simp only [List.map_cons, List.nodup_cons] at hnd
    rcases List.mem_cons.mp h with hEq | hmem
    · injection hEq with h1 h2
      subst h1; subst h2
      simp [alookup]
    · have hk : k0 ≠ k := by
        intro hEq
        subst hEq
        exact hnd.1 (List.mem_map_of_mem Prod.fst hmem)
      simp [alookup, hk]
      exact ih k v hnd.2 hmem

/-- Dict well-formedness: every stored key is the task id of its
record.  This holds by construction for states built through add_task,
matching the Python dict keyed by task_id. -/
def KeysMatch (s : ExecutionState) : Prop :=
  ∀ p ∈ s.tasks, p.1 = p.2.taskId

/-- Dict well-formedness: keys are pairwise distinct, as in any Python
dict. -/
def KeysNodup (s : ExecutionState) : Prop :=
  (s.tasks.map Prod.fst).Nodup

/-- Boolean equality on statuses agrees with equality. -/
theorem tstatus_beq_iff (a b : TaskStatus) : (a == b) = true ↔ a = b := by
  cases a <;> cases b <;> decide

/-- Boolean equality on execution targets agrees with equality. -/
theorem ttarget_beq_iff (a b : ExecutionTarget) :
    (a == b) = true ↔ a = b := by
  cases a <;> cases b <;> decide

/-- In a well formed state, a stored record is looked up by its own
task id. -/
theorem get_task_of_mem_record (s : ExecutionState) (hkm : KeysMatch s)
    (hkn : KeysNodup s) (r : TaskRecord)
    (hr : r ∈ s.tasks.map Prod.snd) : s.get_task r.taskId = some r := by
  obtain ⟨p, hp, hpr⟩ := List.mem_map.mp hr
  have hk := hkm p hp
  rw [hpr] at hk
  have hp2 : (r.taskId, r) ∈ s.tasks := by
    rw [← hk, ← hpr]
    exact hp
  exact mem_alookup s.tasks r.taskId r hkn hp2

/-- In a well formed state, membership in the completed id list is
exactly a completed lookup. -/
theorem completed_ids_iff (s : ExecutionState) (hkm : KeysMatch s)
    (hkn : KeysNodup s) (d : String) :
    s.get_completed_task_ids.contains d = true ↔
      ∃ rd, s.get_task d = some rd ∧ rd.status = .completed := by
  constructor
  · intro h
    have hmem : d ∈ s.get_completed_task_ids := by
      simpa [List.contains] using h
    obtain ⟨rd, hrd, hid⟩ := List.mem_map.mp hmem
    obtain ⟨hrdmem, hst⟩ := List.mem_filter.mp hrd
    have hst2 := (tstatus_beq_iff rd.status .completed).mp hst
    refine ⟨rd, ?_, hst2⟩
    rw [← hid]
    exact get_task_of_mem_record s hkm hkn rd hrdmem
  · intro ⟨rd, hrd, hst⟩
    have hpair := alookup_mem s.tasks d rd hrd
    have hid : d = rd.taskId := hkm (d, rd) hpair
    have hrdmem : rd ∈ s.tasks.map Prod.snd :=
      List.mem_map_of_mem Prod.snd hpair
    have hfil : rd ∈ (s.tasks.map Prod.snd).filter
        (fun r => r.status == .completed) :=
      List.mem_filter.mpr ⟨hrdmem, (tstatus_beq_iff rd.status .completed).mpr hst⟩
    have : d ∈ s.get_completed_task_ids := by
      rw [hid]
      exact List.mem_map_of_mem TaskRecord.taskId hfil
    simpa [List.contains] using this

/-- In a well formed state, the dependency check of a stored record is
exactly: every dependency id looks up to a completed record. -/
theorem deps_met_iff (s : ExecutionState) (hkm : KeysMatch s)
    (hkn : KeysNodup s) (r : TaskRecord)
    (hr : r ∈ s.tasks.map Prod.snd) :
    are_dependencies_met s r.taskId = true ↔
      ∀ d ∈ r.dependsOn, ∃ rd, s.get_task d = some rd ∧
        rd.status = .completed := by
  have hrw : are_dependencies_met s r.taskId =
      (if r.dependsOn.isEmpty = true then true
       else r.dependsOn.all fun dep_id =>
         s.get_completed_task_ids.contains dep_id) := by
    unfold are_dependencies_met
    rw [get_task_of_mem_record s hkm hkn r hr]
  rw [hrw]
  by_cases hemp : r.dependsOn.isEmpty = true
  · rw [if_pos hemp]
    rw [List.isEmpty_iff] at hemp
    simp [hemp]
  · rw [if_neg hemp]
    rw [List.all_eq_true]
    constructor
    · intro h d hd
      exact (completed_ids_iff s hkm hkn d).mp (h d hd)
    · intro h d hd
      exact (completed_ids_iff s hkm hkn d).mpr (h d hd)

/-- C4: in a well formed state, get_executable_batch admits a record to
the server (resp. client) list exactly when it is stored, pending, has
the matching execution target, and every id of its depends_on looks up
to a completed record; failed or missing dependencies exclude it, and
the call mutates nothing (it is a pure read of the state). -/
theorem next_batch_spec (o : Orchestrator) (u : String)
    (s : ExecutionState) (hs : get_state o u = some s)
    (hkm : KeysMatch s) (hkn : KeysNodup s) (r : TaskRecord) :
    (r ∈ (get_executable_batch o u).server_tasks ↔
      r ∈ s.tasks.map Prod.snd ∧ r.status = .pending ∧
      r.execTarget = .server ∧
      ∀ d ∈ r.dependsOn, ∃ rd, s.get_task d = some rd ∧
        rd.status = .completed) ∧
    (r ∈ (get_executable_batch o u).client_tasks ↔
      r ∈ s.tasks.map Prod.snd ∧ r.status = .pending ∧
      r.execTarget = .client ∧
      ∀ d ∈ r.dependsOn, ∃ rd, s.get_task d = some rd ∧
        rd.status = .completed) := by
  simp only [get_state] at hs
  unfold get_executable_batch
  rw [hs]
  constructor
  · constructor
    · intro h
      obtain ⟨hpend, hcond⟩ := List.mem_filter.mp h
      obtain ⟨hrec, hstatus⟩ := List.mem_filter.mp hpend
      rw [Bool.and_eq_true] at hcond
      obtain ⟨hdep, htgt⟩ := hcond
      refine ⟨hrec, (tstatus_beq_iff ..).mp hstatus,
        (ttarget_beq_iff ..).mp htgt,
        (deps_met_iff s hkm hkn r hrec).mp hdep⟩
    · intro ⟨hrec, hstatus, htgt, hdep⟩
      refine List.mem_filter.mpr ⟨List.mem_filter.mpr
        ⟨hrec, (tstatus_beq_iff ..).mpr hstatus⟩, ?_⟩
      rw [Bool.and_eq_true]
      exact ⟨(deps_met_iff s hkm hkn r hrec).mpr hdep,
             (ttarget_beq_iff ..).mpr htgt⟩
  · constructor
    · intro h
      obtain ⟨hpend, hcond⟩ := List.mem_filter.mp h
      obtain ⟨hrec, hstatus⟩ := List.mem_filter.mp hpend
      rw [Bool.and_eq_true] at hcond
      obtain ⟨hdep, htgt⟩ := hcond
      refine ⟨hrec, (tstatus_beq_iff ..).mp hstatus,
        (ttarget_beq_iff ..).mp htgt,
        (deps_met_iff s hkm hkn r hrec).mp hdep⟩
    · intro ⟨hrec, hstatus, htgt, hdep⟩
      refine List.mem_filter.mpr ⟨List.mem_filter.mpr
        ⟨hrec, (tstatus_beq_iff ..).mpr hstatus⟩, ?_⟩
      rw [Bool.and_eq_true]
      exact ⟨(deps_met_iff s hkm hkn r hrec).mpr hdep,
             (ttarget_beq_iff ..).mpr htgt⟩

/-- The state of the C4 witness: one pending server task without
dependencies. -/
def c4Rec : TaskRecord :=
  { task := { task_id := "s1", tool := "web_search",
              execution_target := .server, depends_on := [],
              inputs := [], input_bindings := [],
              control_timeout_ms := none },
    status := .pending, resolved_inputs := [], output := none,
    error := none, created_at := some 0, started_at := none,
    completed_at := none, duration_ms := none, emitted_at := none,
    ack_received_at := none }

/-- The orchestrator of the C4 witness. -/
def c4Orch : Orchestrator :=
  ⟨[("u", { user_id := "u", tasks := [("s1", c4Rec)], updated_at := 0 })]⟩

/-- Witness for C4 at a concrete input: the pending server task with
no dependency is admitted to the server list of the batch. -/
theorem next_batch_spec_witness :
    c4Rec ∈ (get_executable_batch c4Orch "u").server_tasks :=
  (next_batch_spec c4Orch "u"
      { user_id := "u", tasks := [("s1", c4Rec)], updated_at := 0 }
      rfl
      (by intro p hp; rw [List.mem_singleton.mp hp]; rfl)
      (by simp [KeysNodup]) c4Rec).1.mpr
    ⟨by simp, rfl, rfl, by simp [c4Rec, TaskRecord.dependsOn]⟩

/-- Both branches of record creation key the record by the task id. -/
theorem make_task_record_taskId (registry : List String) (now : Nat)
    (task : Task) :
    (make_task_record registry now task).taskId = task.task_id := by
  unfold make_task_record
  split <;> rfl

/-- Every entry of an assignment result is an old entry or the new
pair. -/
theorem mem_aupdate {α : Type} :
    ∀ (l : List (String × α)) (k : String) (v : α) (p : String × α),
    p ∈ aupdate l k v → p ∈ l ∨ p = (k, v) := by
  intro l
  induction l with
  | nil =>
    intro k v p h
    simp [aupdate] at h
    exact Or.inr h
  | cons hd tl ih =>
    intro k v p h
    obtain ⟨k0, v0⟩ := hd
    by_cases hk : k0 = k
    · subst hk
      simp only [aupdate, if_pos rfl] at h
      rcases List.mem_cons.mp h with hEq | hmem
      · exact Or.inr hEq
      · exact Or.inl (List.mem_cons_of_mem _ hmem)
    · simp only [aupdate, if_neg hk] at h
      rcases List.mem_cons.mp h with hEq | hmem
      · exact Or.inl (hEq ▸ List.mem_cons_self _ _)
      · rcases ih k v p hmem with h2 | h2
        · exact Or.inl (List.mem_cons_of_mem _ h2)
        · exact Or.inr h2

/-- An absent key is absent from the key list. -/
theorem alookup_none_not_mem {α : Type} :
    ∀ (l : List (String × α)) (k : String),
    alookup l k = none → k ∉ l.map Prod.fst := by
  intro l
  induction l with
  | nil => intro k _; simp
  | cons hd tl ih =>
    intro k h
    obtain ⟨k0, v0⟩ := hd
    by_cases hk : k0 = k
    · simp [alookup, hk] at h
    · simp only [alookup, if_neg hk] at h
      simp only [List.map_cons, List.mem_cons]
      rintro (hEq | hmem)
      · exact hk hEq.symm
      · exact ih k h hmem

/-- The key list after an assignment: unchanged on overwrite, the key
appended on insertion. -/
theorem aupdate_keys {α : Type} :
    ∀ (l : List (String × α)) (k : String) (v : α),
    (aupdate l k v).map Prod.fst =
      if (alookup l k).isSome then l.map Prod.fst
      else l.map Prod.fst ++ [k] := by
  intro l
  induction l with
  | nil => intro k v; simp [aupdate, alookup]
  | cons hd tl ih =>
    intro k v
    obtain ⟨k0, v0⟩ := hd
    by_cases hk : k0 = k
    · subst hk
      simp [aupdate, alookup]
    · simp only [aupdate, if_neg hk, alookup, List.map_cons, ih]
      by_cases hs : (alookup tl k).isSome
      · simp [hs, hk]
      · simp [hs, hk]

/-- Assignment preserves distinctness of keys. -/
theorem aupdate_keysnodup {α : Type} (l : List (String × α))
    (k : String) (v : α) (h : (l.map Prod.fst).Nodup) :
    ((aupdate l k v).map Prod.fst).Nodup := by
  rw [aupdate_keys]
  by_cases hs : (alookup l k).isSome
  · simpa [hs] using h
  · rw [if_neg hs]
    have hnm : k ∉ l.map Prod.fst := by
      apply alookup_none_not_mem
      cases hl : alookup l k
      · rfl
      · rw [hl] at hs; simp at hs
    rw [List.nodup_append]
    exact ⟨h, List.nodup_singleton k, by
      intro a ha hmem
      rw [List.mem_singleton.mp hmem] at ha
      exact hnm ha⟩

/-- The registration fold preserves key and id agreement. -/
theorem fold_register_keysmatch (registry : List String) (now : Nat) :
    ∀ (ts : List Task) (s : ExecutionState), KeysMatch s →
    KeysMatch (ts.foldl
      (fun s2 tk => s2.add_task now (make_task_record registry now tk)) s) := by
  intro ts
  induction ts with
  | nil => intro s h; exact h
  | cons tk rest ih =>
    intro s h
    simp only [List.foldl_cons]
    apply ih
    intro p hp
    rcases mem_aupdate _ _ _ p hp with h2 | h2
    · exact h p h2
    · rw [h2]

/-- The registration fold preserves distinctness of keys. -/
theorem fold_register_keysnodup (registry : List String) (now : Nat) :
    ∀ (ts : List Task) (s : ExecutionState), KeysNodup s →
    KeysNodup (ts.foldl
      (fun s2 tk => s2.add_task now (make_task_record registry now tk)) s) := by
  intro ts
  induction ts with
  | nil => intro s h; exact h
  | cons tk rest ih =>
    intro s h
    simp only [List.foldl_cons]
    exact ih _ (aupdate_keysnodup _ _ _ h)

/-- The registration fold leaves ids it never registers untouched. -/
theorem register_fold_frame (registry : List String) (now : Nat) :
    ∀ (ts : List Task) (s : ExecutionState) (tid : String),
    (∀ tk ∈ ts, tk.task_id ≠ tid) →
    alookup (ts.foldl
      (fun s2 tk => s2.add_task now (make_task_record registry now tk))
        s).tasks tid = alookup s.tasks tid := by
  intro ts
  induction ts with
  | nil => intro s tid _; rfl
  | cons tk rest ih =>
    intro s tid hne
    simp only [List.foldl_cons]
    rw [ih _ tid (fun y hy => hne y (List.mem_cons_of_mem tk hy))]
    unfold ExecutionState.add_task
    simp only
    rw [alookup_aupdate_ne _ _ _ _ ?_]
    rw [make_task_record_taskId]
    exact hne tk (List.mem_cons_self tk rest)

/-- After registering a list with distinct ids, each id looks up to the
record made from its task. -/
theorem register_fold_lookup (registry : List String) (now : Nat)
    (ts : List Task) (s : ExecutionState) (task : Task)
    (hmem : task ∈ ts) (hnd : (ts.map Task.task_id).Nodup) :
    alookup (ts.foldl
      (fun s2 tk => s2.add_task now (make_task_record registry now tk))
        s).tasks task.task_id =
      some (make_task_record registry now task) := by
  obtain ⟨l1, l2, hsplit⟩ := List.append_of_mem hmem
  subst hsplit
  rw [List.foldl_append, List.foldl_cons]
  have hpost : ∀ tk ∈ l2, tk.task_id ≠ task.task_id := by
    intro tk htk hEq
    rw [List.map_append, List.map_cons, List.nodup_append] at hnd
    have h2 := hnd.2.1
    rw [List.nodup_cons] at h2
    exact h2.1 (hEq ▸ List.mem_map_of_mem Task.task_id htk)
  rw [register_fold_frame registry now l2 _ task.task_id hpost]
  unfold ExecutionState.add_task
  simp only
  rw [make_task_record_taskId]
  exact alookup_aupdate_self _ _ _

/-- C7: registering a task whose tool the registry does not know
records it with status failed and the error
"Tool <name> not found in registry" (note the exact wording), and the
task is never admitted to any executable batch, so it is never
dispatched to the server executor nor emitted to the client. -/
theorem register_unknown_tool (registry : List String) (now : Nat)
    (o : Orchestrator) (u : String) (tasks : List Task) (task : Task)
    (hfresh : get_state o u = none)
    (hnd : (tasks.map Task.task_id).Nodup)
    (hmem : task ∈ tasks)
    (htool : registry.contains task.tool = false) :
    ∃ r, get_record (register_tasks registry now o u tasks) u
        task.task_id = some r ∧
      r.status = .failed ∧
      r.error = some (toolNotFoundMsg task.tool) ∧
      (∀ b ∈ (get_executable_batch (register_tasks registry now o u
          tasks) u).server_tasks, b.taskId ≠ task.task_id) ∧
      (∀ b ∈ (get_executable_batch (register_tasks registry now o u
          tasks) u).client_tasks, b.taskId ≠ task.task_id) := by
  simp only [get_state] at hfresh
  have hrec : make_task_record registry now task =
      { task := task, status := .failed, resolved_inputs := [],
        output := none, error := some (toolNotFoundMsg task.tool),
        created_at := some now, started_at := none,
        completed_at := none, duration_ms := none, emitted_at := none,
        ack_received_at := none } := by
    unfold make_task_record
    rw [htool]
    rfl
  have hstate : get_state (register_tasks registry now o u tasks) u =
      some (tasks.foldl
        (fun s2 tk => s2.add_task now (make_task_record registry now tk))
        { user_id := u, tasks := [], updated_at := now }) := by
    unfold register_tasks
    rw [hfresh]
    simp only [get_state]
    exact alookup_aupdate_self _ _ _
  set s1 : ExecutionState := tasks.foldl
    (fun s2 tk => s2.add_task now (make_task_record registry now tk))
    { user_id := u, tasks := [], updated_at := now } with hs1
  have hkm : KeysMatch s1 := by
    apply fold_register_keysmatch
    intro p hp
    exact absurd hp (List.not_mem_nil p)
  have hkn : KeysNodup s1 := by
    apply fold_register_keysnodup
    exact List.nodup_nil
  have hlook : alookup s1.tasks task.task_id =
      some (make_task_record registry now task) :=
    register_fold_lookup registry now tasks _ task hmem hnd
  refine ⟨make_task_record registry now task, ?_, ?_, ?_, ?_, ?_⟩
  · simp only [get_record, hstate, Option.some_bind]
    exact hlook
  · rw [hrec]
  · rw [hrec]
  · intro b hb
    have hspec := (next_batch_spec (register_tasks registry now o u
      tasks) u s1 hstate hkm hkn b).1.mp hb
    intro hid
    have hbl : s1.get_task b.taskId = some b :=
      get_task_of_mem_record s1 hkm hkn b hspec.1
    rw [hid] at hbl
    rw [show s1.get_task task.task_id =
        some (make_task_record registry now task) from hlook] at hbl
    have hbeq : b = make_task_record registry now task :=
      (Option.some.injEq .. ▸ hbl).symm
    rw [hbeq, hrec] at hspec
    exact absurd hspec.2.1 (by intro h; exact TaskStatus.noConfusion h)
  · intro b hb
    have hspec := (next_batch_spec (register_tasks registry now o u
      tasks) u s1 hstate hkm hkn b).2.mp hb
    intro hid
    have hbl : s1.get_task b.taskId = some b :=
      get_task_of_mem_record s1 hkm hkn b hspec.1
    rw [hid] at hbl
    rw [show s1.get_task task.task_id =
        some (make_task_record registry now task) from hlook] at hbl
    have hbeq : b = make_task_record registry now task :=
      (Option.some.injEq .. ▸ hbl).symm
    rw [hbeq, hrec] at hspec
    exact absurd hspec.2.1 (by intro h; exact TaskStatus.noConfusion h)

/-- The unknown-tool task of the C7 scenario. -/
def c7Task : Task :=
  { task_id := "x", tool := "file_maker", execution_target := .server,
    depends_on := [], inputs := [], input_bindings := [],
    control_timeout_ms := none }

/-- The orchestrator after registering the unknown-tool task. -/
def c7Orch : Orchestrator :=
  register_tasks ["web_search"] 0 ⟨[]⟩ "u" [c7Task]

/-- C7 counterexample: the recorded error string is the literal
"Tool <sq>file_maker<sq> not found in registry" of orchestrator.py line
80, not the "tool file_maker not found" stated by the claim. -/
theorem c7_counterexample :
    (get_record c7Orch "u" "x").map TaskRecord.error =
      some (some (toolNotFoundMsg "file_maker")) ∧
    (get_record c7Orch "u" "x").map TaskRecord.error ≠
      some (some "tool file_maker not found") := by
  constructor
  · rfl
  · decide

/-- Witness for the amended C7 at a concrete input. -/
theorem register_unknown_tool_witness :
    ∃ r, get_record (register_tasks ["web_search"] 0 ⟨[]⟩ "u" [c7Task])
        "u" c7Task.task_id = some r ∧
      r.status = .failed ∧
      r.error = some (toolNotFoundMsg c7Task.tool) ∧
      (∀ b ∈ (get_executable_batch (register_tasks ["web_search"] 0
          ⟨[]⟩ "u" [c7Task]) "u").server_tasks,
        b.taskId ≠ c7Task.task_id) ∧
      (∀ b ∈ (get_executable_batch (register_tasks ["web_search"] 0
          ⟨[]⟩ "u" [c7Task]) "u").client_tasks,
        b.taskId ≠ c7Task.task_id) :=
  register_unknown_tool ["web_search"] 0 ⟨[]⟩ "u" [c7Task] c7Task rfl
    (by simp) (List.mem_singleton.mpr rfl) rfl

/-- Every link the extension loop appends depends on its predecessor:
the found task has the current id in its depends_on. -/
theorem buildChain_chain (tasks : List TaskRecord) :
    ∀ (fuel : Nat) (processed : List String) (a : TaskRecord),
    List.Chain (fun x y => x.taskId ∈ y.dependsOn) a
      (buildChain tasks fuel processed a.taskId).1 := by
  intro fuel
  induction fuel with
  | zero => intro processed a; exact List.Chain.nil
  | succ n ih =>
    intro processed a
    unfold buildChain
    cases hf : findDependent tasks processed a.taskId with
    | none => exact List.Chain.nil
    | some t =>
      refine List.Chain.cons ?_ (ih (t.taskId :: processed) t)
      have hp := List.find?_some hf
      rw [Bool.and_eq_true] at hp
      exact List.elem_iff.mp hp.2

/-- The extension loop only appends tasks of the input list. -/
theorem buildChain_subset (tasks : List TaskRecord) :
    ∀ (fuel : Nat) (processed : List String) (cur : String)
      (x : TaskRecord),
    x ∈ (buildChain tasks fuel processed cur).1 → x ∈ tasks := by
  intro fuel
  induction fuel with
  | zero => intro _ _ x h; exact absurd h (List.not_mem_nil x)
  | succ n ih =>
    intro processed cur x h
    unfold buildChain at h
    cases hf : findDependent tasks processed cur with
    | none =>
      rw [hf] at h
      exact absurd h (List.not_mem_nil x)
    | some t =>
      rw [hf] at h
      rcases List.mem_cons.mp h with hEq | hmem
      · exact hEq ▸ List.mem_of_find?_eq_some hf
      · exact ih _ _ x hmem

/-- Every chain the outer loop produces consists of input tasks and is
linked by the depends-on relation. -/
theorem groupGo_spec (tasks : List TaskRecord) :
    ∀ (rem : List TaskRecord) (processed : List String),
    (∀ x ∈ rem, x ∈ tasks) →
    ∀ chain ∈ groupGo tasks rem processed,
      (∀ x ∈ chain, x ∈ tasks) ∧
      List.Chain' (fun x y => x.taskId ∈ y.dependsOn) chain := by
  intro rem
  induction rem with
  | nil =>
    intro processed _ chain h
    exact absurd h (List.not_mem_nil chain)
  | cons t rest ih =>
    intro processed hsub chain h
    unfold groupGo at h
    by_cases hp : processed.contains t.taskId = true
    · rw [if_pos hp] at h
      exact ih processed (fun x hx => hsub x (List.mem_cons_of_mem t hx))
        chain h
    · rw [if_neg hp] at h
      rcases List.mem_cons.mp h with hEq | hmem
      · subst hEq
        constructor
        · intro x hx
          rcases List.mem_cons.mp hx with hx1 | hx2
          · exact hx1 ▸ hsub t (List.mem_cons_self t rest)
          · exact buildChain_subset tasks tasks.length _ _ x hx2
        · exact buildChain_chain tasks tasks.length _ t
      · exact ih _ (fun x hx => hsub x (List.mem_cons_of_mem t hx))
          chain hmem

/-- Chains of group_chained_tasks consist of input tasks and are
linked by the depends-on relation. -/
theorem group_chains_core (tasks : List TaskRecord)
    (chain : List TaskRecord) (h : chain ∈ group_chained_tasks tasks) :
    (∀ x ∈ chain, x ∈ tasks) ∧
    List.Chain' (fun x y => x.taskId ∈ y.dependsOn) chain := by
  unfold group_chained_tasks at h
  by_cases he : tasks.isEmpty = true
  · rw [if_pos he] at h
    exact absurd h (List.not_mem_nil chain)
  · rw [if_neg he] at h
    exact groupGo_spec tasks tasks [] (fun x hx => hx) chain h

/-- Along a depends-on linked chain of ranked tasks, the rank strictly
increases. -/
theorem chain_rank_increasing (input : List TaskRecord)
    (rank : String → Nat)
    (hrank : ∀ t ∈ input, ∀ d ∈ t.dependsOn, rank d < rank t.taskId) :
    ∀ (chain : List TaskRecord), (∀ x ∈ chain, x ∈ input) →
    List.Chain' (fun x y => x.taskId ∈ y.dependsOn) chain →
    List.Chain' (fun x y => rank x.taskId < rank y.taskId) chain := by
  intro chain
  induction chain with
  | nil => intro _ _; simp
  | cons a l ih =>
    intro hsub hch
    cases l with
    | nil => simp
    | cons b l2 =>
      rw [List.chain'_cons] at hch ⊢
      refine ⟨?_, ih (fun x hx => hsub x (List.mem_cons_of_mem a hx))
        hch.2⟩
      exact hrank b
        (hsub b (List.mem_cons_of_mem a (List.mem_cons_self b l2)))
        a.taskId hch.1

/-- The task ids of a record list, in order. -/
def taskIds (l : List TaskRecord) : List String :=
  l.map TaskRecord.taskId

/-- contains only depends on membership. -/
theorem contains_congr (l1 l2 : List String)
    (h : ∀ a, a ∈ l1 ↔ a ∈ l2) (x : String) :
    l1.contains x = l2.contains x := by
  by_cases hx : x ∈ l1
  · have h1 : l1.contains x = true := List.elem_iff.mpr hx
    have h2 : l2.contains x = true := List.elem_iff.mpr ((h x).mp hx)
    rw [h1, h2]
  · have h1 : l1.contains x = false := by
      cases hc : l1.contains x
      · rfl
      · exact absurd (List.elem_iff.mp hc) hx
    have h2 : l2.contains x = false := by
      cases hc : l2.contains x
      · rfl
      · exact absurd ((h x).mpr (List.elem_iff.mp hc)) hx
    rw [h1, h2]

/-- find? only depends on the predicate values on the list. -/
theorem find_pred_congr (l : List TaskRecord) (p q : TaskRecord → Bool)
    (h : ∀ a ∈ l, p a = q a) : l.find? p = l.find? q := by
  induction l with
  | nil => rfl
  | cons a t ih =>
    rw [List.find?_cons, List.find?_cons, h a (List.mem_cons_self a t)]
    cases q a with
    | true => rfl
    | false => exact ih (fun x hx => h x (List.mem_cons_of_mem a hx))

/-- find? skips a prefix on which the predicate is false. -/
theorem find_append_skip (l1 l2 : List TaskRecord)
    (p : TaskRecord → Bool) (h : ∀ x ∈ l1, p x = false) :
    (l1 ++ l2).find? p = l2.find? p := by
  induction l1 with
  | nil => rfl
  | cons a t ih =>
    rw [List.cons_append, List.find?_cons, h a (List.mem_cons_self a t)]
    exact ih (fun x hx => h x (List.mem_cons_of_mem a hx))

/-- findDependent stated over any processed list with the same
membership. -/
theorem find_dependent_congr (ts : List TaskRecord)
    (pl ql : List String) (h : ∀ a, a ∈ pl ↔ a ∈ ql) (cur : String) :
    findDependent ts pl cur =
      ts.find? (fun t => !(ql.contains t.taskId) &&
        t.dependsOn.contains cur) := by
  unfold findDependent
  apply find_pred_congr
  intro t _
  rw [contains_congr pl ql h t.taskId]

/-- A nonempty extension starts with the task findDependent finds. -/
theorem buildChain_head (ts : List TaskRecord) :
    ∀ (fuel : Nat) (proc : List String) (cur : String) (b : TaskRecord)
      (l : List TaskRecord),
    (buildChain ts fuel proc cur).1 = b :: l →
    findDependent ts proc cur = some b := by
  intro fuel
  cases fuel with
  | zero =>
    intro proc cur b l h
    simp [buildChain] at h
  | succ n =>
    intro proc cur b l h
    unfold buildChain at h
    cases hf : findDependent ts proc cur with
    | none =>
      rw [hf] at h
      simp at h
    | some t =>
      rw [hf] at h
      have h2 : t :: (buildChain ts n (t.taskId :: proc) t.taskId).1 =
          b :: l := h
      injection h2 with h3 h4
      rw [h3]

/-- The processed set after an extension run is the ids of the
produced chain, most recent first, on top of the initial set. -/
theorem buildChain_processed (ts : List TaskRecord) :
    ∀ (fuel : Nat) (proc : List String) (cur : String),
    (buildChain ts fuel proc cur).2 =
      (taskIds (buildChain ts fuel proc cur).1).reverse ++ proc := by
  intro fuel
  induction fuel with
  | zero => intro proc cur; simp [buildChain, taskIds]
  | succ n ih =>
    intro proc cur
    unfold buildChain
    cases hf : findDependent ts proc cur with
    | none => simp [taskIds]
    | some t =>
      simp only [taskIds, List.map_cons, List.reverse_cons]
      rw [ih (t.taskId :: proc) t.taskId]
      simp [taskIds, List.append_assoc]

/-- Membership in the processed set after an extension run. -/
theorem mem_buildChain_processed (ts : List TaskRecord) (fuel : Nat)
    (proc : List String) (cur : String) (a : String) :
    a ∈ (buildChain ts fuel proc cur).2 ↔
      a ∈ taskIds (buildChain ts fuel proc cur).1 ∨ a ∈ proc := by
  rw [buildChain_processed]
  simp [List.mem_append, List.mem_reverse]

/-- The chain an extension run produces has pairwise distinct ids,
none of them previously processed. -/
theorem buildChain_fresh (ts : List TaskRecord) :
    ∀ (fuel : Nat) (proc : List String) (cur : String),
    (taskIds (buildChain ts fuel proc cur).1).Nodup ∧
    ∀ a ∈ taskIds (buildChain ts fuel proc cur).1, a ∉ proc := by
  intro fuel
  induction fuel with
  | zero =>
    intro proc cur
    constructor
    · simp [buildChain, taskIds]
    · intro a ha
      simp [buildChain, taskIds] at ha
  | succ n ih =>
    intro proc cur
    cases hf : findDependent ts proc cur with
    | none =>
      have hch : (buildChain ts (n + 1) proc cur).1 = [] := by
        unfold buildChain
        rw [hf]
      rw [hch]
      constructor
      · simp [taskIds]
      · intro a ha
        simp [taskIds] at ha
    | some t =>
      have hch : (buildChain ts (n + 1) proc cur).1 =
          t :: (buildChain ts n (t.taskId :: proc) t.taskId).1 := by
        conv_lhs => unfold buildChain
        rw [hf]
      obtain ⟨ihn, ihp⟩ := ih (t.taskId :: proc) t.taskId
      have htid : t.taskId ∉
          taskIds (buildChain ts n (t.taskId :: proc) t.taskId).1 :=
        fun hmem => ihp _ hmem (List.mem_cons_self _ _)
      have hunproc : t.taskId ∉ proc := by
        have hp := List.find?_some hf
        rw [Bool.and_eq_true] at hp
        intro hain
        have hc : proc.contains t.taskId = true := List.elem_iff.mpr hain
        rw [hc] at hp
        simp at hp
      rw [hch]
      constructor
      · simp only [taskIds, List.map_cons, List.nodup_cons]
        exact ⟨htid, ihn⟩
      · intro a ha
        simp only [taskIds, List.map_cons, List.mem_cons] at ha
        rcases ha with h1 | h1
        · rw [h1]; exact hunproc
        · intro hain
          exact ihp a h1 (List.mem_cons_of_mem _ hain)

/-- Each inner link of an extension run is found by findDependent with
the processed set as it stood at that step: ids of the earlier part of
the chain on top of the initial set. -/
theorem buildChain_steps (ts : List TaskRecord) :
    ∀ (fuel : Nat) (proc : List String) (cur : String)
      (c1 : List TaskRecord) (a b : TaskRecord) (c2 : List TaskRecord),
    (buildChain ts fuel proc cur).1 = c1 ++ a :: b :: c2 →
    findDependent ts ((taskIds (c1 ++ [a])).reverse ++ proc)
      a.taskId = some b := by
  intro fuel
  induction fuel with
  | zero =>
    intro proc cur c1 a b c2 h
    cases c1 <;> simp [buildChain] at h
  | succ n ih =>
    intro proc cur c1 a b c2 h
    unfold buildChain at h
    cases hf : findDependent ts proc cur with
    | none =>
      rw [hf] at h
      cases c1 <;> simp at h
    | some t =>
      rw [hf] at h
      have hbc2 : t :: (buildChain ts n (t.taskId :: proc) t.taskId).1 =
          c1 ++ a :: b :: c2 := h
      cases c1 with
      | nil =>
        simp only [List.nil_append] at hbc2
        injection hbc2 with h1 h2
        subst h1
        simp only [taskIds, List.nil_append, List.map_cons, List.map_nil,
                   List.reverse_cons, List.reverse_nil,
                   List.singleton_append]
        exact buildChain_head ts n (t.taskId :: proc) t.taskId b _ h2
      | cons t1 c1p =>
        simp only [List.cons_append] at hbc2
        injection hbc2 with h1 h2
        subst h1
        have hrec := ih (t.taskId :: proc) t.taskId c1p a b c2 h2
        simp only [taskIds, List.cons_append, List.map_cons,
                   List.reverse_cons, List.map_append] at hrec ⊢
        simpa [List.append_assoc, List.singleton_append] using hrec

/-- The outer loop skips an already processed head. -/
theorem groupGo_skip_eq (ts : List TaskRecord) (t0 : TaskRecord)
    (rest : List TaskRecord) (proc : List String)
    (hp : proc.contains t0.taskId = true) :
    groupGo ts (t0 :: rest) proc = groupGo ts rest proc := by
  conv_lhs => unfold groupGo
  rw [if_pos hp]

/-- The outer loop starts a chain at an unprocessed head. -/
theorem groupGo_emit_eq (ts : List TaskRecord) (t0 : TaskRecord)
    (rest : List TaskRecord) (proc : List String)
    (hp : ¬ proc.contains t0.taskId = true) :
    groupGo ts (t0 :: rest) proc =
      (t0 :: (buildChain ts ts.length (t0.taskId :: proc)
        t0.taskId).1) ::
      groupGo ts rest
        (buildChain ts ts.length (t0.taskId :: proc) t0.taskId).2 := by
  conv_lhs => unfold groupGo
  rw [if_neg hp]

/-- All ids across the chains the outer loop emits are pairwise
distinct and previously unprocessed. -/
theorem groupGo_flatten_nodup (ts : List TaskRecord) :
    ∀ (rem : List TaskRecord) (proc : List String),
    (taskIds (groupGo ts rem proc).flatten).Nodup ∧
    ∀ a ∈ taskIds (groupGo ts rem proc).flatten, a ∉ proc := by
  intro rem
  induction rem with
  | nil =>
    intro proc
    constructor
    · simp [groupGo, taskIds]
    · intro a ha
      simp [groupGo, taskIds] at ha
  | cons t0 rest ih =>
    intro proc
    by_cases hp : proc.contains t0.taskId = true
    · rw [groupGo_skip_eq ts t0 rest proc hp]
      exact ih proc
    · rw [groupGo_emit_eq ts t0 rest proc hp]
      obtain ⟨hbn, hbp⟩ :=
        buildChain_fresh ts ts.length (t0.taskId :: proc) t0.taskId
      obtain ⟨ihn, ihp⟩ := ih
        (buildChain ts ts.length (t0.taskId :: proc) t0.taskId).2
      have ht0proc : t0.taskId ∉ proc := by
        intro hmem
        exact hp (List.elem_iff.mpr hmem)
      have hcn : (taskIds (t0 :: (buildChain ts ts.length
          (t0.taskId :: proc) t0.taskId).1)).Nodup := by
        simp only [taskIds, List.map_cons, List.nodup_cons]
        refine ⟨?_, hbn⟩
        intro hmem
        exact hbp _ hmem (List.mem_cons_self _ _)
      have hcp : ∀ a ∈ taskIds (t0 :: (buildChain ts ts.length
          (t0.taskId :: proc) t0.taskId).1), a ∉ proc := by
        intro a ha
        simp only [taskIds, List.map_cons, List.mem_cons] at ha
        rcases ha with h1 | h1
        · rw [h1]; exact ht0proc
        · intro hmem
          exact hbp a h1 (List.mem_cons_of_mem _ hmem)
      have htailp2 : ∀ a ∈ taskIds (groupGo ts rest
          (buildChain ts ts.length (t0.taskId :: proc) t0.taskId).2
          ).flatten,
          a ∉ taskIds (t0 :: (buildChain ts ts.length
            (t0.taskId :: proc) t0.taskId).1) ∧ a ∉ proc := by
        intro a ha
        have h2 := ihp a ha
        rw [mem_buildChain_processed] at h2
        push_neg at h2
        obtain ⟨h3, h4⟩ := h2
        rw [List.mem_cons] at h4
        push_neg at h4
        constructor
        · simp only [taskIds, List.map_cons, List.mem_cons]
          rintro (h5 | h5)
          · exact h4.1 h5
          · exact h3 h5
        · exact h4.2
      constructor
      · simp only [List.flatten_cons, taskIds, List.map_append]
        rw [List.nodup_append]
        refine ⟨hcn, ihn, ?_⟩
        intro a ha hmem
        exact (htailp2 a hmem).1 ha
      · intro a ha
        simp only [List.flatten_cons, taskIds, List.map_append,
                   List.mem_append] at ha
        rcases ha with h1 | h1
        · exact hcp a h1
        · exact (htailp2 a h1).2

/-- With distinct input ids, every task of the remaining list ends up
in an emitted chain unless it was already processed. -/
theorem groupGo_complete (ts : List TaskRecord)
    (hnd : (taskIds ts).Nodup) :
    ∀ (rem : List TaskRecord) (proc : List String),
    (∀ x ∈ rem, x ∈ ts) →
    ∀ t ∈ rem, t ∈ (groupGo ts rem proc).flatten ∨ t.taskId ∈ proc := by
  intro rem
  induction rem with
  | nil =>
    intro proc _ t ht
    exact absurd ht (List.not_mem_nil t)
  | cons t0 rest ih =>
    intro proc hsub t ht
    by_cases hp : proc.contains t0.taskId = true
    · rw [groupGo_skip_eq ts t0 rest proc hp]
      rcases List.mem_cons.mp ht with hEq | hmem
      · subst hEq
        exact Or.inr (List.elem_iff.mp hp)
      · exact ih proc (fun x hx => hsub x (List.mem_cons_of_mem t0 hx))
          t hmem
    · rw [groupGo_emit_eq ts t0 rest proc hp]
      rcases List.mem_cons.mp ht with hEq | hmem
      · subst hEq
        refine Or.inl ?_
        rw [List.flatten_cons]
        exact List.mem_append.mpr (Or.inl (List.mem_cons_self _ _))
      · rcases ih (buildChain ts ts.length (t0.taskId :: proc)
            t0.taskId).2
            (fun x hx => hsub x (List.mem_cons_of_mem t0 hx)) t hmem
          with h1 | h1
        · refine Or.inl ?_
          rw [List.flatten_cons]
          exact List.mem_append.mpr (Or.inr h1)
        · rw [mem_buildChain_processed] at h1
          rcases h1 with h2 | h2
          · obtain ⟨y, hy, hyid⟩ :=
              (by simpa only [taskIds, List.mem_map] using h2 :
                ∃ y ∈ (buildChain ts ts.length (t0.taskId :: proc)
                  t0.taskId).1, y.taskId = t.taskId)
            have hyts : y ∈ ts :=
              buildChain_subset ts ts.length _ _ y hy
            have hts : t ∈ ts := hsub t (List.mem_cons_of_mem t0 hmem)
            have hyt : y = t := by
              refine List.inj_on_of_nodup_map ?_ hyts hts hyid
              simpa [taskIds] using hnd
            refine Or.inl ?_
            rw [List.flatten_cons]
            refine List.mem_append.mpr (Or.inl ?_)
            rw [← hyt]
            exact List.mem_cons_of_mem t0 hy
          · rw [List.mem_cons] at h2
            rcases h2 with h3 | h3
            · have ht0ts : t0 ∈ ts :=
                hsub t0 (List.mem_cons_self t0 rest)
              have hts : t ∈ ts := hsub t (List.mem_cons_of_mem t0 hmem)
              have htt0 : t = t0 := by
                refine List.inj_on_of_nodup_map ?_ hts ht0ts h3
                simpa [taskIds] using hnd
              refine Or.inl ?_
              rw [List.flatten_cons]
              refine List.mem_append.mpr (Or.inl ?_)
              rw [htt0]
              exact List.mem_cons_self _ _
            · exact Or.inr h3

/-- With distinct input ids, the chains of group_chained_tasks are a
partition of the input: their concatenation is a permutation of it. -/
theorem group_chains_partition (ts : List TaskRecord)
    (hnd : (taskIds ts).Nodup) :
    ((group_chained_tasks ts).flatten).Perm ts := by
  unfold group_chained_tasks
  by_cases he : ts.isEmpty = true
  · rw [if_pos he, List.isEmpty_iff.mp he]
    rfl
  · rw [if_neg he]
    have hsub : ∀ x ∈ (groupGo ts ts []).flatten, x ∈ ts := by
      intro x hx
      obtain ⟨c, hc, hxc⟩ := List.mem_flatten.mp hx
      exact (groupGo_spec ts ts [] (fun y hy => hy) c hc).1 x hxc
    have hcomp : ∀ t ∈ ts, t ∈ (groupGo ts ts []).flatten := by
      intro t ht
      rcases groupGo_complete ts hnd ts [] (fun y hy => hy) t ht
        with h | h
      · exact h
      · exact absurd h (List.not_mem_nil _)
    have hnodup_flat : ((groupGo ts ts []).flatten).Nodup :=
      List.Nodup.of_map TaskRecord.taskId
        (groupGo_flatten_nodup ts ts []).1
    have hnodup_ts : ts.Nodup := List.Nodup.of_map TaskRecord.taskId hnd
    exact (List.perm_ext_iff_of_nodup hnodup_flat hnodup_ts).mpr
      (fun a => ⟨fun h => hsub a h, fun h => hcomp a h⟩)

/-- Chain starts and chain extensions are first-match searches over
the input in insertion order: for every split of the output around one
chain, that chain starts at the first input task whose id is in no
earlier chain, and each successive member is the first input task, not
in an earlier chain nor earlier in this one, that depends on the
previous member.  The parameters carry the loop state: rem is the
input suffix still to scan, visited the prefix already scanned (all
processed), proc the processed ids, and dids any list with the same
members as proc (the ids of the chains already emitted). -/
theorem groupGo_firstness (ts : List TaskRecord) :
    ∀ (rem : List TaskRecord) (proc dids : List String)
      (visited : List TaskRecord),
    ts = visited ++ rem →
    (∀ x ∈ visited, x.taskId ∈ proc) →
    (∀ a, a ∈ proc ↔ a ∈ dids) →
    ∀ (pre : List (List TaskRecord)) (c : List TaskRecord)
      (post : List (List TaskRecord)),
    groupGo ts rem proc = pre ++ c :: post →
    (∃ hd tl, c = hd :: tl ∧
      ts.find? (fun t =>
        !((dids ++ taskIds pre.flatten).contains t.taskId)) =
        some hd) ∧
    (∀ c1 a b c2, c = c1 ++ a :: b :: c2 →
      ts.find? (fun t =>
        !((dids ++ taskIds (pre.flatten ++ c1 ++ [a])).contains
          t.taskId) && t.dependsOn.contains a.taskId) = some b) := by
  intro rem
  induction rem with
  | nil =>
    intro proc dids visited hts hvis hequiv pre c post hres
    rw [show groupGo ts [] proc = [] from rfl] at hres
    cases pre <;> simp at hres
  | cons t0 rest ih =>
    intro proc dids visited hts hvis hequiv pre c post hres
    by_cases hp : proc.contains t0.taskId = true
    · rw [groupGo_skip_eq ts t0 rest proc hp] at hres
      refine ih proc dids (visited ++ [t0]) ?_ ?_ hequiv pre c post hres
      · rw [hts, List.append_cons]
      · intro x hx
        rcases List.mem_append.mp hx with h1 | h1
        · exact hvis x h1
        · rw [List.mem_singleton.mp h1]
          exact List.elem_iff.mp hp
    · rw [groupGo_emit_eq ts t0 rest proc hp] at hres
      have ht0nd : t0.taskId ∉ dids := by
        intro hmem
        exact hp (List.elem_iff.mpr ((hequiv t0.taskId).mpr hmem))
      cases pre with
      | nil =>
        rw [List.nil_append] at hres
        injection hres with hc hpost
        subst hc
        constructor
        · refine ⟨t0, _, rfl, ?_⟩
          have hnorm : dids ++
              taskIds (List.flatten ([] : List (List TaskRecord))) =
              dids := by
            simp [taskIds]
          rw [hnorm]
          have hfail : ∀ x ∈ visited,
              (fun t => !(dids.contains t.taskId)) x = false := by
            intro x hx
            have hcx : dids.contains x.taskId = true :=
              List.elem_iff.mpr ((hequiv x.taskId).mp (hvis x hx))
            simp only [hcx, Bool.not_true]
          rw [hts, find_append_skip visited (t0 :: rest) _ hfail]
          apply List.find?_cons_of_pos
          have hcf : dids.contains t0.taskId = false := by
            cases hc2 : dids.contains t0.taskId
            · rfl
            · exact absurd (List.elem_iff.mp hc2) ht0nd
          simp only [hcf, Bool.not_false]
        · intro c1 a b c2 hsplit
          cases c1 with
          | nil =>
            rw [List.nil_append] at hsplit
            injection hsplit with h1 h2
            subst h1
            have hcode := buildChain_head ts ts.length
              (t0.taskId :: proc) t0.taskId b _ h2
            have hmm : ∀ x, x ∈ (t0.taskId :: proc) ↔
                x ∈ (dids ++ [t0.taskId]) := by
              intro x
              simp only [List.mem_cons, List.mem_append,
                         List.mem_singleton, hequiv x]
              tauto
            rw [find_dependent_congr ts (t0.taskId :: proc)
              (dids ++ [t0.taskId]) hmm t0.taskId] at hcode
            exact hcode
          | cons t1 c1p =>
            rw [List.cons_append] at hsplit
            injection hsplit with h1 h2
            subst h1
            have hcode := buildChain_steps ts ts.length
              (t0.taskId :: proc) t0.taskId c1p a b c2 h2
            have hmm : ∀ x,
                x ∈ ((taskIds (c1p ++ [a])).reverse ++
                  (t0.taskId :: proc)) ↔
                x ∈ (dids ++ (t0.taskId :: taskIds (c1p ++ [a]))) := by
              intro x
              simp only [List.mem_append, List.mem_reverse,
                         List.mem_cons, hequiv x]
              tauto
            rw [find_dependent_congr ts _ _ hmm a.taskId] at hcode
            exact hcode
      | cons q pre2 =>
        rw [List.cons_append] at hres
        injection hres with hq hrest
        subst hq
        have hmemp2 : ∀ x, x ∈ (buildChain ts ts.length
            (t0.taskId :: proc) t0.taskId).2 ↔
            x ∈ taskIds (buildChain ts ts.length (t0.taskId :: proc)
              t0.taskId).1 ∨ x = t0.taskId ∨ x ∈ proc := by
          intro x
          rw [mem_buildChain_processed]
          simp [List.mem_cons]
        have hts2 : ts = (visited ++ [t0]) ++ rest := by
          rw [hts, List.append_cons]
        have hvis2 : ∀ x ∈ visited ++ [t0], x.taskId ∈
            (buildChain ts ts.length (t0.taskId :: proc)
              t0.taskId).2 := by
          intro x hx
          rw [hmemp2]
          rcases List.mem_append.mp hx with h1 | h1
          · exact Or.inr (Or.inr (hvis x h1))
          · rw [List.mem_singleton.mp h1]
            exact Or.inr (Or.inl rfl)
        have hequiv2 : ∀ x, x ∈ (buildChain ts ts.length
            (t0.taskId :: proc) t0.taskId).2 ↔
            x ∈ dids ++ taskIds (t0 :: (buildChain ts ts.length
              (t0.taskId :: proc) t0.taskId).1) := by
          intro x
          rw [hmemp2]
          simp only [taskIds, List.mem_append, List.map_cons,
                     List.mem_cons, hequiv x]
          tauto
        have IH2 := ih (buildChain ts ts.length (t0.taskId :: proc)
            t0.taskId).2
          (dids ++ taskIds (t0 :: (buildChain ts ts.length
            (t0.taskId :: proc) t0.taskId).1))
          (visited ++ [t0]) hts2 hvis2 hequiv2 pre2 c post hrest
        constructor
        · have h1 := IH2.1
          simp only [taskIds, List.flatten_cons, List.map_append,
                     List.map_cons, List.cons_append, List.append_assoc,
                     List.singleton_append, List.map_nil,
                     List.flatten_nil, List.nil_append,
                     List.append_nil] at h1 ⊢
          exact h1
        · intro c1 a b c2 hsplit
          have h1 := IH2.2 c1 a b c2 hsplit
          simp only [taskIds, List.flatten_cons, List.map_append,
                     List.map_cons, List.cons_append, List.append_assoc,
                     List.singleton_append, List.map_nil,
                     List.flatten_nil, List.nil_append,
                     List.append_nil] at h1 ⊢
          exact h1

/-- C5 amended: with pairwise distinct task ids, group_chained_tasks
partitions the client list into chains: the concatenation of the
emitted chains is a permutation of the input.  Each chain starts at
the first task of the input, in insertion order, whose id is in no
earlier chain; each successive chain member is the first task of the
input, in insertion order, that is neither in an earlier chain nor
earlier in the current chain and has the previous member's id in its
depends_on - the code imposes no condition about dependencies on other
input tasks and uses no lexicographic tie-break.  Whenever the
dependency relation admits a topological rank (as the acyclic DAG
invariant guarantees), every chain is topologically ordered with
respect to depends_on: no earlier task of a chain depends on a later
one. -/
theorem chain_grouping (input : List TaskRecord) (rank : String → Nat)
    (hnd : (taskIds input).Nodup)
    (hrank : ∀ t ∈ input, ∀ d ∈ t.dependsOn, rank d < rank t.taskId) :
    ((group_chained_tasks input).flatten).Perm input ∧
    (∀ chain ∈ group_chained_tasks input,
      List.Chain' (fun x y => x.taskId ∈ y.dependsOn) chain ∧
      List.Pairwise (fun x y => y.taskId ∉ x.dependsOn) chain) ∧
    (∀ (pre : List (List TaskRecord)) (c : List TaskRecord)
       (post : List (List TaskRecord)),
      group_chained_tasks input = pre ++ c :: post →
      (∃ hd tl, c = hd :: tl ∧
        input.find? (fun t =>
          !((taskIds pre.flatten).contains t.taskId)) = some hd) ∧
      (∀ c1 a b c2, c = c1 ++ a :: b :: c2 →
        input.find? (fun t =>
          !((taskIds (pre.flatten ++ c1 ++ [a])).contains t.taskId) &&
          t.dependsOn.contains a.taskId) = some b)) := by
  refine ⟨group_chains_partition input hnd, ?_, ?_⟩
  · intro chain hc
    obtain ⟨hsub, hch⟩ := group_chains_core input chain hc
    refine ⟨hch, ?_⟩
    have hlt := chain_rank_increasing input rank hrank chain hsub hch
    haveI : IsTrans TaskRecord
        (fun x y => rank x.taskId < rank y.taskId) :=
      ⟨fun _ _ _ h1 h2 => Nat.lt_trans h1 h2⟩
    have hpw : List.Pairwise
        (fun x y => rank x.taskId < rank y.taskId) chain :=
      List.chain'_iff_pairwise.mp hlt
    exact List.Pairwise.imp_of_mem
      (fun {x y} hx _ hlt2 hdep =>
        absurd (hrank x (hsub x hx) y.taskId hdep) (Nat.lt_asymm hlt2))
      hpw
  · intro pre c post hsplit
    have hne : ¬ input.isEmpty = true := by
      intro he
      unfold group_chained_tasks at hsplit
      rw [if_pos he] at hsplit
      cases pre <;> simp at hsplit
    have hgg : groupGo input input [] = pre ++ c :: post := by
      unfold group_chained_tasks at hsplit
      rw [if_neg hne] at hsplit
      exact hsplit
    have H := groupGo_firstness input input [] [] [] rfl
      (by intro x hx; exact absurd hx (List.not_mem_nil x))
      (fun a => Iff.rfl) pre c post hgg
    exact H

/-- The first client task of the C5 scenario. -/
def c5A : TaskRecord :=
  { task := { task_id := "a", tool := "folder_create",
              execution_target := .client, depends_on := [],
              inputs := [], input_bindings := [],
              control_timeout_ms := none },
    status := .pending, resolved_inputs := [], output := none,
    error := none, created_at := some 0, started_at := none,
    completed_at := none, duration_ms := none, emitted_at := none,
    ack_received_at := none }

/-- The second client task of the C5 scenario. -/
def c5B : TaskRecord :=
  { task := { task_id := "b", tool := "folder_create",
              execution_target := .client, depends_on := [],
              inputs := [], input_bindings := [],
              control_timeout_ms := none },
    status := .pending, resolved_inputs := [], output := none,
    error := none, created_at := some 0, started_at := none,
    completed_at := none, duration_ms := none, emitted_at := none,
    ack_received_at := none }

/-- The third client task of the C5 scenario, depending on both a and
b. -/
def c5C : TaskRecord :=
  { task := { task_id := "c", tool := "file_create",
              execution_target := .client, depends_on := ["a", "b"],
              inputs := [], input_bindings := [],
              control_timeout_ms := none },
    status := .pending, resolved_inputs := [], output := none,
    error := none, created_at := some 0, started_at := none,
    completed_at := none, duration_ms := none, emitted_at := none,
    ack_received_at := none }

/-- The client list of the C5 scenario, in insertion order. -/
def c5Input : List TaskRecord := [c5A, c5B, c5C]

/-- The chain-extension condition exactly as the specification words
it: the successor has the predecessor in depends_on and no dependency
on any other task of the input list.  Stated from the claim for
comparison with the code. -/
def specChainStep (input : List TaskRecord) (a b : TaskRecord) : Prop :=
  a.taskId ∈ b.dependsOn ∧
  ∀ c ∈ input, c.taskId ∈ b.dependsOn → c.taskId = a.taskId

/-- C5 counterexample: on input [a, b, c] with c depending on both a
and b, the code produces the chains [[a, c], [b]], extending the chain
of a with c although c also depends on b, another task of the input;
the claim requires that a chain successor have no dependency on any
other input task, so the produced grouping violates the claimed chain
definition. -/
theorem c5_counterexample :
    group_chained_tasks c5Input = [[c5A, c5C], [c5B]] ∧
    ¬ (∀ chain ∈ group_chained_tasks c5Input,
        List.Chain' (specChainStep c5Input) chain) := by
  have hg : group_chained_tasks c5Input = [[c5A, c5C], [c5B]] := rfl
  refine ⟨hg, ?_⟩
  intro h
  have h2 := h [c5A, c5C] (by rw [hg]; exact List.mem_cons_self _ _)
  rw [List.chain'_cons] at h2
  have h4 := h2.1.2 c5B
    (List.mem_cons_of_mem c5A (List.mem_cons_self c5B [c5C]))
    (by decide)
  exact absurd h4 (by decide)

/-- A topological rank for the C5 scenario. -/
def c5Rank : String → Nat :=
  fun id => if id = "a" then 0 else if id = "b" then 1 else 2

/-- Witness for the amended C5 at a concrete input: the chains cover
the three input tasks exactly, and the emitted chain [a, c] is
topologically ordered. -/
theorem chain_grouping_witness :
    ((group_chained_tasks c5Input).flatten).Perm c5Input ∧
    List.Pairwise (fun x y => y.taskId ∉ x.dependsOn) [c5A, c5C] :=
  have h := chain_grouping c5Input c5Rank (by decide) (by decide)
  ⟨h.1, (h.2.1 [c5A, c5C]
    (by rw [show group_chained_tasks c5Input = [[c5A, c5C], [c5B]]
          from rfl]
        exact List.mem_cons_self _ _)).2⟩

/-- When the batch is always empty yet a pending task remains, every
iteration of the loop body recurses: the idle counter is reset whenever
it reaches max_idle, so the loop consumes all its fuel and ends by the
iteration bound, never through the no-more-work break, and the state is
untouched. -/
theorem execution_loop_stuck_aux (env : EngineEnv) (u : String)
    (o : Orchestrator) (s : ExecutionState)
    (hs : get_state o u = some s)
    (hserver : (get_executable_batch o u).server_tasks = [])
    (hclient : (get_executable_batch o u).client_tasks = [])
    (hpending : (s.get_tasks_by_status .pending).isEmpty = false) :
    ∀ (fuel nwc : Nat),
      execution_loop_go env u o fuel nwc = (o, fuel, false) := by
  intro fuel
  induction fuel with
  | zero => intro nwc; rfl
  | succ n ih =>
    intro nwc
    simp only [execution_loop_go]
    rw [hserver, hclient]
    simp only [List.isEmpty_nil, Bool.and_true, if_true]
    by_cases hcnt : 5 ≤ nwc + 1
    · rw [if_pos hcnt, hs]
      show (if (!(s.get_tasks_by_status .pending).isEmpty ||
                !(s.get_tasks_by_status .running).isEmpty) = true then
          ((execution_loop_go env u o n 0).1,
           (execution_loop_go env u o n 0).2.1 + 1,
           (execution_loop_go env u o n 0).2.2)
        else (o, 1, true)) = (o, n + 1, false)
      rw [hpending]
      simp only [Bool.not_false, Bool.true_or, if_true]
      rw [ih 0]
    · rw [if_neg hcnt]
      rw [ih (nwc + 1)]

/-- C3 amended: when every remaining pending task is blocked (the
executable batch is empty while a pending task remains, as after a
failed dependency), the driver does not exit by idle-count: each time
the idle counter reaches max_idle (5) the pending tasks cause it to
reset and the loop continues, so the loop runs all max_iterations (100)
iterations and ends by the safety bound, with the state unchanged; the
blocked dependents indeed remain pending forever. -/
theorem execution_loop_blocked (env : EngineEnv) (u : String)
    (o : Orchestrator) (s : ExecutionState)
    (hs : get_state o u = some s)
    (hserver : (get_executable_batch o u).server_tasks = [])
    (hclient : (get_executable_batch o u).client_tasks = [])
    (hpending : (s.get_tasks_by_status .pending).isEmpty = false) :
    execution_loop env u o = (o, 100, false) :=
  execution_loop_stuck_aux env u o s hs hserver hclient hpending 100 0

/-- The failed task of the C3 scenario. -/
def c3RecF : TaskRecord :=
  { task := { task_id := "f", tool := "web_search",
              execution_target := .server, depends_on := [],
              inputs := [], input_bindings := [],
              control_timeout_ms := none },
    status := .failed, resolved_inputs := [], output := none,
    error := some "boom", created_at := some 0, started_at := some 0,
    completed_at := some 1, duration_ms := some 1, emitted_at := none,
    ack_received_at := none }

/-- The pending dependent of the failed task in the C3 scenario. -/
def c3RecD : TaskRecord :=
  { task := { task_id := "d", tool := "web_search",
              execution_target := .server, depends_on := ["f"],
              inputs := [], input_bindings := [],
              control_timeout_ms := none },
    status := .pending, resolved_inputs := [], output := none,
    error := none, created_at := some 0, started_at := none,
    completed_at := none, duration_ms := none, emitted_at := none,
    ack_received_at := none }

/-- The C3 state: one failed task and one pending dependent. -/
def c3State : ExecutionState :=
  { user_id := "u", tasks := [("f", c3RecF), ("d", c3RecD)],
    updated_at := 1 }

/-- The C3 orchestrator. -/
def c3Orch : Orchestrator := ⟨[("u", c3State)]⟩

/-- The C3 engine environment. -/
def c3Env : EngineEnv :=
  { server_tool_executor := none, client_task_emitter := none,
    times_out := fun _ => false }

/-- C3 counterexample: with every remaining pending task blocked by a
failed dependency, every iteration yields an empty batch, yet the loop
does not exit after max_idle (5) of them: it runs the full 100
iterations and terminates by max_iterations, not by idle-count. -/
theorem c3_counterexample :
    execution_loop c3Env "u" c3Orch = (c3Orch, 100, false) ∧
    ¬ (execution_loop c3Env "u" c3Orch).2.1 ≤ 5 := by
  have h := execution_loop_stuck_aux c3Env "u" c3Orch c3State rfl rfl
    rfl rfl 100 0
  rw [execution_loop]
  rw [h]
  exact ⟨rfl, by decide⟩

/-- Witness for the amended C3 at a concrete input. -/
theorem execution_loop_blocked_witness :
    execution_loop c3Env "u" c3Orch = (c3Orch, 100, false) :=
  execution_loop_blocked c3Env "u" c3Orch c3State rfl rfl rfl rfl

end Spec2Proof
